import Mathlib

/-!
# Verification of the versioned tuple-storage layer (`SqlTable`)

Shallow embedding of `src/storage/sql_table.cpp` and
`src/include/storage/sql_table.h`.  Column ids, column oids and layout
versions are `Nat`.  The external collaborators (`DataTable`,
`StorageUtil`, `TransientValuePeeker`) are not part of the provided
sources; where an operation's behaviour depends on them they are modelled
from the specification, each such definition carries a doc comment
starting with `Modelled from the spec:`.

`TERRIER_ASSERT` guards are modelled as `Except` failures (the spec's
*version-skew* / caller-bug errors); `std::vector::at` /
`std::unordered_map::at` bound and key checks are modelled the same way.
-/

namespace TerrierStorage

/-- Modelled from the spec: compile-time cap on layout versions per table
(`MAX_NUM_VERSIONS`).  The constant's value is not in the provided
sources; a concrete value is fixed here. -/
def MAX_NUM_VERSIONS : Nat := 10

/-- Modelled from the spec: number of reserved columns at the start of every
block layout (the version-pointer slot). -/
def NUM_RESERVED_COLUMNS : Nat := 1

/-- Modelled from the spec: the reserved version-pointer physical column id. -/
def VERSION_POINTER_COLUMN_ID : Nat := 0

/-- Modelled from the spec: the distinguished sentinel physical column id that
tells the underlying data table to skip a position. -/
def IGNORE_COLUMN_ID : Nat := 65535

/-- Modelled from the spec: the attribute-size marker of varlen columns. -/
def VARLEN_COLUMN : Nat := 32784

/-- The content of one projection slot: `none` is the null marker, and
`some (payload, size)` is a written attribute of the given byte size. -/
abbrev Val := Option (Nat × Nat)

/-- A constant transient value: `none` is the SQL null marker. -/
abbrev TransientVal := Option Nat

/-- A tuple slot handle.  `ver` is the layout version of the data table the
slot's block belongs to (`slot.GetBlock()->data_table_->layout_version_`). -/
structure TupleSlot where
  ver : Nat
  idx : Nat
deriving DecidableEq, Repr

/-- A `ProjectedRow`: a projection header (physical column ids) plus one
value slot per header position. -/
structure ProjectedRow where
  colIds : List Nat
  vals : List Val
deriving DecidableEq, Repr

/-- A `ProjectedColumns` batch buffer: a header, the materialized rows
(`NumTuples` is `rows.length`) and the capacity `MaxTuples`. -/
structure ProjectedColumns where
  colIds : List Nat
  rows : List (List Val)
  maxTuples : Nat
deriving DecidableEq, Repr

/-- A schema column: catalog oid, attribute size, and the optional stored
default expression (constant-valued; `some none` is a constant null). -/
structure Column where
  oid : Nat
  attrSize : Nat
  storedExpr : Option TransientVal
deriving DecidableEq, Repr

/-- A scan iterator position: the layout version of the data table it points
into and the row index inside that data table. -/
structure ScanPos where
  ver : Nat
  idx : Nat
deriving DecidableEq, Repr

/-- Modelled from the spec: the interface of the underlying block-store
`DataTable` (`Select`, `Update`, `Delete`, `Insert`, `IncrementalScan`).
Results are oracle functions: the MVCC visibility outcome of each delegated
call, plus the stored rows used by scans (`numRows` rows, each materialized
against a projection header by `rowVals`; an `IGNORE` position is left
null by the data table). -/
structure DtOracle where
  selectFn : TupleSlot → List Nat → List (Nat × Nat) → Bool × List Val
  updateFn : TupleSlot → ProjectedRow → Bool
  deleteFn : TupleSlot → Bool
  insertFn : ProjectedRow → TupleSlot
  numRows : Nat
  rowVals : Nat → List Nat → List Val

/-- One `DataTableVersion` registry entry (`sql_table.h`): the data table,
the block layout's attribute sizes (`attrSizeOf` is `layout_.AttrSize`),
the two directional column maps as association lists, the schema snapshot
and the default-expression map. `dtVer` is the layout version handed to the
`DataTable` constructor. -/
structure DataTableVersion where
  dtVer : Nat
  attrSizeOf : Nat → Nat
  column_oid_to_id_map_ : List (Nat × Nat)
  column_id_to_oid_map_ : List (Nat × Nat)
  schemaCols : List Column
  default_value_map_ : Nat → Option TransientVal
  dt : DtOracle

/-- The `SqlTable` state: the fixed-capacity registry vector (total map;
only indices below `MAX_NUM_VERSIONS` are addressable) and the atomic
version counter `num_versions_`. -/
structure SqlTable where
  tables_ : Nat → DataTableVersion
  num_versions_ : Nat

/-- The transaction context: only the must-abort flag is relevant here. -/
structure Txn where
  mustAbort : Bool
deriving DecidableEq, Repr

/-- A redo record: the intended tuple slot and the delta projection. -/
structure RedoRecord where
  tupleSlot : TupleSlot
  delta : ProjectedRow
deriving DecidableEq, Repr

/-- Failure modes: `versionSkew` for the tuple-version-order assertions,
`outOfRange` for `std::vector::at`, `assertViolation` for the remaining
`TERRIER_ASSERT` / `std::unordered_map::at` guards, `unexpectedSwitch` for
the `std::runtime_error` thrown on an unsupported attribute size. -/
inductive Err where
  | versionSkew
  | outOfRange
  | assertViolation
  | unexpectedSwitch
deriving DecidableEq, Repr

/-- Trace events recording the delegated data-table sub-operations (with
their success flags) and the default-filler invocations made by `Scan`. -/
inductive Ev where
  | selEv (v : Nat) (slot : TupleSlot) (ok : Bool)
  | updEv (v : Nat) (slot : TupleSlot) (ok : Bool)
  | delEv (v : Nat) (slot : TupleSlot) (ok : Bool)
  | insEv (v : Nat) (row : ProjectedRow) (slot : TupleSlot)
  | fillEv (rowIdx : Nat) (missing : List (Nat × Nat)) (tv : Nat) (lv : Nat)
deriving DecidableEq, Repr

/-- First-match lookup in an association list (`std::unordered_map` find). -/
def alookup (k : Nat) : List (Nat × Nat) → Option Nat
  | [] => none
  | (a, b) :: l => if a = k then some b else alookup k l

/-- `std::unordered_map::insert`: inserts only when the key is absent. -/
def smInsert (m : List (Nat × Nat)) (k v : Nat) : List (Nat × Nat) :=
  if (alookup k m).isSome then m else m ++ [(k, v)]

/-- `std::memcpy` of `n` column ids out of `src` (byte-for-byte copy of a
header into a same-sized buffer). -/
def memcpyIds (src : List Nat) (n : Nat) : List Nat :=
  (List.range n).map fun j => src.getD j 0

/-- `tables_.at(v)`: bound-checked access to the fixed-capacity registry
vector. -/
def SqlTable.getVer (st : SqlTable) (v : Nat) : Except Err DataTableVersion :=
  if v < MAX_NUM_VERSIONS then .ok (st.tables_ v) else .error .outOfRange

/-- Result of `AlignHeaderToVersion`: the translated header, the cached
original header (the scratch copy), the missing-column list and the
size-mismatch map. -/
structure AlignRes where
  translated : List Nat
  cached : List Nat
  missing : List (Nat × Nat)
  sizeMap : List (Nat × Nat)
deriving DecidableEq, Repr

/-- The per-position loop of `SqlTable::AlignHeaderToVersion`
(sql_table.cpp:237-261): resolve each desired-version column id to its oid,
rewrite to the tuple-version id (recording a size mismatch) or to
`IGNORE_COLUMN_ID` (recording the missing column). -/
def alignGo (tupleV desiredV : DataTableVersion) :
    Nat → List Nat → List (Nat × Nat) →
    Except Err (List Nat × List (Nat × Nat) × List (Nat × Nat))
  | _, [], sm => .ok ([], [], sm)
  | i, cid :: rest, sm =>
    if cid = VERSION_POINTER_COLUMN_ID then .error .assertViolation
    else
      match alookup cid desiredV.column_id_to_oid_map_ with
      | none => .error .assertViolation
      | some oid =>
        match alookup oid tupleV.column_oid_to_id_map_ with
        | some tid =>
          let dsz := desiredV.attrSizeOf cid
          let sm' := if tupleV.attrSizeOf tid ≠ dsz then smInsert sm tid dsz else sm
          match alignGo tupleV desiredV (i + 1) rest sm' with
          | .error e => .error e
          | .ok (hs, ms, smf) => .ok (tid :: hs, ms, smf)
        | none =>
          match alignGo tupleV desiredV (i + 1) rest sm with
          | .error e => .error e
          | .ok (hs, ms, smf) => .ok (IGNORE_COLUMN_ID :: hs, (i, oid) :: ms, smf)

/-- `SqlTable::AlignHeaderToVersion` (sql_table.cpp:228-263): caches the
original header into the caller-provided scratch, rewrites the buffer's
header in place from desired-version ids to tuple-version ids, and returns
the missing columns and the size-mismatch map. -/
def AlignHeaderToVersion (tupleV desiredV : DataTableVersion) (header : List Nat) :
    Except Err AlignRes :=
  let cached := memcpyIds header header.length
  match alignGo tupleV desiredV 0 header [] with
  | .error e => .error e
  | .ok (hs, ms, sm) => .ok ⟨hs, cached, ms, sm⟩

/-- Modelled from the spec: `TransientValuePeeker::PeekValue` evaluates a
constant into a byte buffer, succeeding exactly when the constant is not
the null marker. -/
def peekValue (v : TransientVal) : Option Nat := v

/-- `schema_->GetColumn(oid).AttrSize()`: attribute size of the schema
column with the given oid, `none` when the schema has no such column
(the `Schema::GetColumn` contract violation). -/
def schemaAttrSize (cols : List Column) (oid : Nat) : Option Nat :=
  (cols.find? fun c => c.oid = oid).map Column.attrSize

/-- The inner search loop of `SqlTable::FillMissingColumns`
(sql_table.cpp:196-217): walk versions from `v` for `fuel` steps; at the
first version whose default map holds the oid, compute that version's
attribute size, and if the constant peeks (is not null) copy it into the
slot at `pos` and mark it not-null, stopping; otherwise keep searching. -/
def fillLoop (st : SqlTable) (oid pos : Nat) : List Val → Nat → Nat → Except Err (List Val)
  | vals, _, 0 => .ok vals
  | vals, v, fuel + 1 =>
    match st.getVer v with
    | .error e => .error e
    | .ok cv =>
      match cv.default_value_map_ oid with
      | none => fillLoop st oid pos vals (v + 1) fuel
      | some dc =>
        match schemaAttrSize cv.schemaCols oid with
        | none => .error .assertViolation
        | some sz =>
          match peekValue dc with
          | some payload => .ok (vals.set pos (some (payload, sz)))
          | none => fillLoop st oid pos vals (v + 1) fuel

/-- One missing column of `SqlTable::FillMissingColumns`: the leading
`TERRIER_ASSERT` requires the desired version's default map to hold the
oid (as a constant), then the versions `tuple_version + 1 .. layout_version`
are searched. -/
def fillOne (st : SqlTable) (tv lv : Nat) (vals : List Val) (pos oid : Nat) :
    Except Err (List Val) :=
  match st.getVer lv with
  | .error e => .error e
  | .ok dv =>
    if (dv.default_value_map_ oid).isSome then
      fillLoop st oid pos vals (tv + 1) (lv - tv)
    else .error .assertViolation

/-- `SqlTable::FillMissingColumns` (sql_table.cpp:186-219): fill every
missing `(position, oid)` pair in turn. -/
def FillMissingColumns (st : SqlTable) (tv lv : Nat) :
    List (Nat × Nat) → List Val → Except Err (List Val)
  | [], vals => .ok vals
  | (pos, oid) :: rest, vals =>
    match fillOne st tv lv vals pos oid with
    | .error e => .error e
    | .ok vals' => FillMissingColumns st tv lv rest vals'

/-- `SqlTable::Select` (sql_table.cpp:22-53).  Returns the data table's
visibility result, the output buffer (header restored from the scratch
copy, missing columns default-filled), and the trace of delegated calls. -/
def SqlTable.Select (st : SqlTable) (txn : Txn) (slot : TupleSlot)
    (pr : ProjectedRow) (lv : Nat) :
    Except Err (Bool × ProjectedRow × List Ev) :=
  let tv := slot.ver
  if tv ≤ lv then
    if tv = lv then
      match st.getVer tv with
      | .error e => .error e
      | .ok tver =>
        let r := tver.dt.selectFn slot pr.colIds []
        .ok (r.1, { pr with vals := r.2 }, [.selEv tv slot r.1])
    else
      match st.getVer lv with
      | .error e => .error e
      | .ok dv =>
        match st.getVer tv with
        | .error e => .error e
        | .ok tver =>
          match AlignHeaderToVersion tver dv pr.colIds with
          | .error e => .error e
          | .ok ar =>
            let r := tver.dt.selectFn slot ar.translated ar.sizeMap
            let prR : ProjectedRow :=
              { colIds := memcpyIds ar.cached ar.translated.length, vals := r.2 }
            if ar.missing.isEmpty then
              .ok (r.1, prR, [.selEv tv slot r.1])
            else
              match FillMissingColumns st tv lv ar.missing prR.vals with
              | .error e => .error e
              | .ok vals' => .ok (r.1, { prR with vals := vals' }, [.selEv tv slot r.1])
  else .error .versionSkew

/-- Modelled from the spec: `StorageUtil::ApplyDelta` — for each position of
the delta header, copy the delta's value into the row position that carries
the same physical column id; delta ids with no match in the row header are
skipped. -/
def applyDeltaGo (prIds : List Nat) : List Val → List Nat → List Val → List Val
  | vals, [], _ => vals
  | vals, _, [] => vals
  | vals, cid :: cs, v :: vs =>
    let vals' :=
      match prIds.indexOf? cid with
      | some j => vals.set j v
      | none => vals
    applyDeltaGo prIds vals' cs vs

/-- Modelled from the spec: apply a delta projection on top of a
materialized projection, respecting both headers. -/
def applyDelta (delta pr : ProjectedRow) : ProjectedRow :=
  { pr with vals := applyDeltaGo pr.colIds pr.vals delta.colIds delta.vals }

/-- `SqlTable::Update` (sql_table.cpp:60-128).  `useUpdatedSlot` models
whether the caller passes a non-null `updated_slot` output pointer; the
returned `Option TupleSlot` is that output.  The trace records the
delegated data-table sub-operations in program order. -/
def SqlTable.Update (st : SqlTable) (txn : Txn) (redo : RedoRecord) (lv : Nat)
    (useUpdatedSlot : Bool) :
    Except Err (Bool × Option TupleSlot × Txn × List Ev) :=
  let curr := redo.tupleSlot
  let tv := curr.ver
  if tv ≤ lv then
    let wrap : Bool × Option TupleSlot × List Ev →
        Except Err (Bool × Option TupleSlot × Txn × List Ev) :=
      fun r =>
        .ok (r.1, r.2.1, if r.1 then txn else { txn with mustAbort := true }, r.2.2)
    if tv = lv then
      match st.getVer lv with
      | .error e => .error e
      | .ok dver =>
        let r := dver.dt.updateFn curr redo.delta
        wrap (r, if useUpdatedSlot then some curr else none, [.updEv lv curr r])
    else
      match st.getVer lv with
      | .error e => .error e
      | .ok dv =>
        match st.getVer tv with
        | .error e => .error e
        | .ok tver =>
          match AlignHeaderToVersion tver dv redo.delta.colIds with
          | .error e => .error e
          | .ok ar =>
            if ar.missing.isEmpty then
              let r := tver.dt.updateFn curr { redo.delta with colIds := ar.translated }
              wrap (r, if useUpdatedSlot then some curr else none, [.updEv tv curr r])
            else
              let colIds := dv.column_id_to_oid_map_.map Prod.fst
              let pr0 : ProjectedRow :=
                { colIds := colIds, vals := List.replicate colIds.length none }
              match st.Select txn curr pr0 lv with
              | .error e => .error e
              | .ok (r0, pr1, evSel) =>
                let out0 := if useUpdatedSlot then some curr else none
                if r0 then
                  let r1 := tver.dt.deleteFn curr
                  if r1 then
                    if useUpdatedSlot then
                      let pr2 := applyDelta { redo.delta with colIds := ar.translated } pr1
                      let ns := dv.dt.insertFn pr2
                      wrap (r1, some ns, evSel ++ [.delEv tv curr r1, .insEv lv pr2 ns])
                    else
                      wrap (r1, none, evSel ++ [.delEv tv curr r1])
                  else
                    wrap (r1, out0, evSel ++ [.delEv tv curr r1])
                else
                  wrap (r0, out0, evSel)
  else .error .versionSkew

/-- `SqlTable::Delete` (sql_table.h:114-132): always delete from the data
table holding the slot; on failure mark the transaction must-abort. -/
def SqlTable.Delete (st : SqlTable) (txn : Txn) (slot : TupleSlot) :
    Except Err (Bool × Txn × List Ev) :=
  let tv := slot.ver
  match st.getVer tv with
  | .error e => .error e
  | .ok tver =>
    let r := tver.dt.deleteFn slot
    .ok (r, if r then txn else { txn with mustAbort := true }, [.delEv tv slot r])

/-- Modelled from the spec: `DataTable::IncrementalScan` materializes rows
starting at `startIdx` against the given header, appending at most `room`
rows, and reports the position one past the last row scanned. -/
def IncrementalScan (dt : DtOracle) (startIdx : Nat) (header : List Nat)
    (room : Nat) : List (List Val) × Nat :=
  let take := min (dt.numRows - startIdx) room
  ((List.range take).map fun j => dt.rowVals (startIdx + j) header, startIdx + take)

/-- The per-row default-fill loop of `SqlTable::Scan`
(sql_table.cpp:177-182): run `FillMissingColumns` over `fuel` consecutive
rows starting at index `i`, recording one fill event per row. -/
def fillRows (st : SqlTable) (missing : List (Nat × Nat)) (tv lv : Nat) :
    List (List Val) → Nat → Nat → Except Err (List (List Val) × List Ev)
  | rows, _, 0 => .ok (rows, [])
  | rows, i, fuel + 1 =>
    match FillMissingColumns st tv lv missing (rows.getD i []) with
    | .error e => .error e
    | .ok r' =>
      match fillRows st missing tv lv (rows.set i r') (i + 1) fuel with
      | .error e => .error e
      | .ok (rs, evs) => .ok (rs, .fillEv i missing tv lv :: evs)

/-- `if (i != tuple_version) *start_pos = tuple_v.data_table_->begin();`
(sql_table.cpp:171): reset the iterator to the beginning of version `i`
when moving past the starting version. -/
def scanStartPos (i tupleVersion : Nat) (pos : ScanPos) : ScanPos :=
  if i ≠ tupleVersion then { ver := i, idx := 0 } else pos

/-- The main loop of `SqlTable::Scan` (sql_table.cpp:164-183), mirroring
the C++ `for` loop: `i` is the loop variable, `fuel` bounds the remaining
iterations, `filled` is the running `filled` variable. -/
def scanLoop (st : SqlTable) (dv : DataTableVersion) (tupleVersion lv : Nat) :
    Nat → Nat → ScanPos → ProjectedColumns → Nat →
    Except Err (ScanPos × ProjectedColumns × List Ev)
  | 0, _, pos, pc, _ => .ok (pos, pc, [])
  | fuel + 1, i, pos, pc, filled =>
    if i ≤ lv ∧ pc.rows.length < pc.maxTuples then
      let startIdx := filled
      match st.getVer i with
      | .error e => .error e
      | .ok tupleV =>
        match AlignHeaderToVersion tupleV dv pc.colIds with
        | .error e => .error e
        | .ok ar =>
          let pos1 := scanStartPos i tupleVersion pos
          let scanned := IncrementalScan tupleV.dt pos1.idx ar.translated
            (pc.maxTuples - pc.rows.length)
          let pc1 : ProjectedColumns :=
            { pc with colIds := memcpyIds ar.cached ar.translated.length,
                      rows := pc.rows ++ scanned.1 }
          let filled1 := pc1.rows.length
          let pos2 : ScanPos := { pos1 with idx := scanned.2 }
          if ar.missing.isEmpty then
            scanLoop st dv tupleVersion lv fuel (i + 1) pos2 pc1 filled1
          else
            match fillRows st ar.missing tupleVersion lv pc1.rows startIdx
                (filled1 - startIdx) with
            | .error e => .error e
            | .ok (rows2, evF) =>
              match scanLoop st dv tupleVersion lv fuel (i + 1) pos2
                  { pc1 with rows := rows2 } filled1 with
              | .error e => .error e
              | .ok (p, c, evs) => .ok (p, c, evF ++ evs)
    else .ok (pos, pc, [])

/-- `SqlTable::Scan` (sql_table.cpp:142-184).  The leading `TERRIER_ASSERT`
bounds the output buffer's width by the desired version's column count; on
a version match the scan delegates to the data table directly (modelled
from the spec: the buffer is cleared and refilled), otherwise the versioned
loop runs with `filled` starting at `0`. -/
def SqlTable.Scan (st : SqlTable) (txn : Txn) (pos : ScanPos)
    (pc : ProjectedColumns) (lv : Nat) :
    Except Err (ScanPos × ProjectedColumns × List Ev) :=
  let tupleVersion := pos.ver
  match st.getVer lv with
  | .error e => .error e
  | .ok dv =>
    if pc.colIds.length ≤ dv.column_oid_to_id_map_.length then
      if tupleVersion = lv then
        let scanned := IncrementalScan dv.dt pos.idx pc.colIds pc.maxTuples
        .ok ({ pos with idx := scanned.2 }, { pc with rows := scanned.1 }, [])
      else
        scanLoop st dv tupleVersion lv (lv + 1 - tupleVersion) tupleVersion pos pc 0
    else .error .assertViolation

/-- The five attribute-size classes of the `CreateTable` switch. -/
inductive SizeClass where
  | varlen
  | b8
  | b4
  | b2
  | b1
deriving DecidableEq, Repr

/-- The `switch (column.AttrSize())` of `SqlTable::CreateTable`
(sql_table.cpp:299-327): classify an attribute size, `none` hitting the
`default:` throw. -/
def sizeClass (n : Nat) : Option SizeClass :=
  if n = VARLEN_COLUMN then some .varlen
  else if n = 8 then some .b8
  else if n = 4 then some .b4
  else if n = 2 then some .b2
  else if n = 1 then some .b1
  else none

/-- Modelled from the spec: `StorageUtil::ComputeBaseAttributeOffsets`
computes, for each size class, the first physical column id of its bucket:
the reserved prefix comes first, then the varlen, 8-, 4-, 2- and 1-byte
buckets in this order, each sized by the number of columns in the class. -/
def ComputeBaseAttributeOffsets (attrSizes : List Nat) (numReserved : Nat) :
    SizeClass → Nat :=
  let rest := attrSizes.drop numReserved
  let nV := rest.count VARLEN_COLUMN
  let n8 := rest.count 8
  let n4 := rest.count 4
  let n2 := rest.count 2
  fun k =>
    match k with
    | .varlen => numReserved
    | .b8 => numReserved + nV
    | .b4 => numReserved + nV + n8
    | .b2 => numReserved + nV + n8 + n4
    | .b1 => numReserved + nV + n8 + n4 + n2

/-- The maps being accumulated by the `CreateTable` column loop. -/
structure BuildMaps where
  idToOid : List (Nat × Nat)
  oidToId : List (Nat × Nat)
  dmap : Nat → Option TransientVal
  sizes : Nat → Nat

/-- `offsets[k]++`: bump one size-class counter. -/
def bump (offs : SizeClass → Nat) (k : SizeClass) : SizeClass → Nat :=
  fun j => if j = k then offs k + 1 else offs j

/-- The column loop of `SqlTable::CreateTable` (sql_table.cpp:297-328):
for each schema column, assign the next physical id of its size-class
bucket, record both directional map entries and the default expression
(when present); an unsupported size hits the `default:` throw (`none`). -/
def addColumns : List Column → (SizeClass → Nat) → BuildMaps →
    Option (BuildMaps × (SizeClass → Nat))
  | [], offs, b => some (b, offs)
  | c :: cs, offs, b =>
    match sizeClass c.attrSize with
    | none => none
    | some k =>
      let id := offs k
      let b' : BuildMaps :=
        { idToOid := (id, c.oid) :: b.idToOid
          oidToId := (c.oid, id) :: b.oidToId
          dmap :=
            match c.storedExpr with
            | some e => fun o => if o = c.oid then some e else b.dmap o
            | none => b.dmap
          sizes := fun i => if i = id then c.attrSize else b.sizes i }
      addColumns cs (bump offs k) b'

/-- Modelled from the spec: the oracle of a freshly constructed (empty)
`DataTable`. -/
def defaultOracle : DtOracle :=
  { selectFn := fun _ _ _ => (false, [])
    updateFn := fun _ _ => false
    deleteFn := fun _ => false
    insertFn := fun _ => ⟨0, 0⟩
    numRows := 0
    rowVals := fun _ _ => [] }

/-- A default-constructed `DataTableVersion()` registry slot. -/
def emptyDTV : DataTableVersion :=
  { dtVer := 0
    attrSizeOf := fun _ => 0
    column_oid_to_id_map_ := []
    column_id_to_oid_map_ := []
    schemaCols := []
    default_value_map_ := fun _ => none
    dt := defaultOracle }

/-- `SqlTable::CreateTable` (sql_table.cpp:272-334): atomically increment
the `uint8_t` version counter; if the new value reaches the cap, clamp the
counter to `MAX_NUM_VERSIONS` and report failure; otherwise build the
attribute-size list (reserved 8-byte prefix plus schema sizes), the
bucketed base offsets, and the column maps, and install the new
`DataTableVersion` at index `curr_num - 1`. -/
def SqlTable.CreateTable (st : SqlTable) (schema : List Column) (version : Nat) :
    Except Err (Bool × SqlTable) :=
  let curr_num := (st.num_versions_ + 1) % 256
  if MAX_NUM_VERSIONS ≤ curr_num then
    .ok (false, { st with num_versions_ := MAX_NUM_VERSIONS })
  else
    let attrSizes := List.replicate NUM_RESERVED_COLUMNS 8 ++ schema.map Column.attrSize
    let offsets := ComputeBaseAttributeOffsets attrSizes NUM_RESERVED_COLUMNS
    let start : BuildMaps :=
      { idToOid := []
        oidToId := []
        dmap := fun _ => none
        sizes := fun i => if i < NUM_RESERVED_COLUMNS then 8 else 0 }
    match addColumns schema offsets start with
    | none => .error .unexpectedSwitch
    | some (b, _) =>
      let newVer : DataTableVersion :=
        { dtVer := version
          attrSizeOf := b.sizes
          column_oid_to_id_map_ := b.oidToId
          column_id_to_oid_map_ := b.idToOid
          schemaCols := schema
          default_value_map_ := b.dmap
          dt := defaultOracle }
      .ok (true, { tables_ := fun j => if j = curr_num - 1 then newVer else st.tables_ j,
                   num_versions_ := curr_num })

/-- `SqlTable::UpdateSchema` (sql_table.h:160-164): the input version must
not be below the current counter, then delegate to `CreateTable`. -/
def SqlTable.UpdateSchema (st : SqlTable) (txn : Txn) (schema : List Column)
    (lv : Nat) : Except Err (Bool × SqlTable) :=
  if st.num_versions_ ≤ lv then st.CreateTable schema lv
  else .error .assertViolation

/-! ## Spec-shaped reference definitions

The following definitions follow the wording of the spec claims (not the
source); they exist to be compared against the source-derived definitions
above. -/

/-- The inner default search as claim C3 states it: stop at the *first*
version whose default map contains the oid; fill and mark not-null only
when that version's constant is not the null marker, otherwise leave the
slot null and stop searching. -/
def fillLoopClaim (st : SqlTable) (oid pos : Nat) :
    List Val → Nat → Nat → Except Err (List Val)
  | vals, _, 0 => .ok vals
  | vals, v, fuel + 1 =>
    match st.getVer v with
    | .error e => .error e
    | .ok cv =>
      match cv.default_value_map_ oid with
      | none => fillLoopClaim st oid pos vals (v + 1) fuel
      | some dc =>
        match schemaAttrSize cv.schemaCols oid with
        | none => .error .assertViolation
        | some sz =>
          match peekValue dc with
          | some payload => .ok (vals.set pos (some (payload, sz)))
          | none => .ok vals

/-- One missing column filled as claim C3 states it. -/
def fillOneClaim (st : SqlTable) (tv lv : Nat) (vals : List Val) (pos oid : Nat) :
    Except Err (List Val) :=
  match st.getVer lv with
  | .error e => .error e
  | .ok dv =>
    if (dv.default_value_map_ oid).isSome then
      fillLoopClaim st oid pos vals (tv + 1) (lv - tv)
    else .error .assertViolation

/-- The default filler as claim C3 states it, over a whole missing list. -/
def FillMissingClaim (st : SqlTable) (tv lv : Nat) :
    List (Nat × Nat) → List Val → Except Err (List Val)
  | [], vals => .ok vals
  | (pos, oid) :: rest, vals =>
    match fillOneClaim st tv lv vals pos oid with
    | .error e => .error e
    | .ok vals' => FillMissingClaim st tv lv rest vals'

/-- The first version among `start, start + 1, …, start + fuel - 1` whose
default map holds a non-null constant for `oid`, paired with that version's
schema attribute size (`0` if the schema lacks the column). -/
def firstHitIn (st : SqlTable) (oid start fuel : Nat) : Option (Nat × Nat) :=
  ((List.range' start fuel).filterMap fun v =>
    match (st.tables_ v).default_value_map_ oid with
    | some (some payload) =>
      some (payload, (schemaAttrSize (st.tables_ v).schemaCols oid).getD 0)
    | _ => none).head?

/-- The first version in `tuple_version + 1 .. layout_version` providing a
non-null constant default for `oid`, together with that version's schema
attribute size. -/
def firstNonNullDefault (st : SqlTable) (oid tv lv : Nat) : Option (Nat × Nat) :=
  firstHitIn st oid (tv + 1) (lv - tv)

/-- The per-version body of the `Scan` procedure as claim C6 narrates it:
iterate over the explicit version list; for each version `v` translate the
header, append an incremental scan bounded by the remaining capacity,
restore the header, and run the default filler over exactly the newly
filled rows with the missing columns of `v`; the filler's starting version
for iteration `v` is `fs v`. -/
def ScanSpecGo (st : SqlTable) (dv : DataTableVersion) (tupleVersion lv : Nat)
    (fs : Nat → Nat) :
    List Nat → ScanPos → ProjectedColumns →
    Except Err (ScanPos × ProjectedColumns × List Ev)
  | [], pos, pc => .ok (pos, pc, [])
  | v :: vs, pos, pc =>
    if pc.rows.length < pc.maxTuples then
      match st.getVer v with
      | .error e => .error e
      | .ok tupleV =>
        match AlignHeaderToVersion tupleV dv pc.colIds with
        | .error e => .error e
        | .ok ar =>
          let pos1 := scanStartPos v tupleVersion pos
          let startIdx := pc.rows.length
          let scanned := IncrementalScan tupleV.dt pos1.idx ar.translated
            (pc.maxTuples - pc.rows.length)
          let pc1 : ProjectedColumns :=
            { pc with colIds := memcpyIds ar.cached ar.translated.length,
                      rows := pc.rows ++ scanned.1 }
          let pos2 : ScanPos := { pos1 with idx := scanned.2 }
          if ar.missing.isEmpty then
            ScanSpecGo st dv tupleVersion lv fs vs pos2 pc1
          else
            match fillRows st ar.missing (fs v) lv pc1.rows startIdx
                (pc1.rows.length - startIdx) with
            | .error e => .error e
            | .ok (rows2, evF) =>
              match ScanSpecGo st dv tupleVersion lv fs vs pos2
                  { pc1 with rows := rows2 } with
              | .error e => .error e
              | .ok (p, c, evs) => .ok (p, c, evF ++ evs)
    else .ok (pos, pc, [])

/-- The `Scan` procedure as claim C6 narrates it, parameterized by the
filler's starting version `fs v` for each iteration version `v`.  The
claim as written uses `fs = fun v => v` (the search starts at `v + 1`);
the amended claim uses `fs = fun _ => pos.ver`. -/
def ScanSpec (st : SqlTable) (txn : Txn) (pos : ScanPos)
    (pc : ProjectedColumns) (lv : Nat) (fs : Nat → Nat) :
    Except Err (ScanPos × ProjectedColumns × List Ev) :=
  match st.getVer lv with
  | .error e => .error e
  | .ok dv =>
    if pc.colIds.length ≤ dv.column_oid_to_id_map_.length then
      if pos.ver = lv then
        let scanned := IncrementalScan dv.dt pos.idx pc.colIds pc.maxTuples
        .ok ({ pos with idx := scanned.2 }, { pc with rows := scanned.1 }, [])
      else
        ScanSpecGo st dv pos.ver lv fs (List.range' pos.ver (lv + 1 - pos.ver)) pos pc
    else .error .assertViolation

/-- `true` on a trace event recording a failed delegated sub-operation
(select, update or delete; inserts report no failure). -/
def failedSubOp : Ev → Bool
  | .selEv _ _ ok => !ok
  | .updEv _ _ ok => !ok
  | .delEv _ _ ok => !ok
  | _ => false

/-- `true` only on a failed update or delete sub-operation (the
sub-operations claim C7 enumerates that can carry a failure flag). -/
def failedUDI : Ev → Bool
  | .updEv _ _ ok => !ok
  | .delEv _ _ ok => !ok
  | _ => false

/-! ## Concrete table states used by counterexamples and witnesses -/

/-- Data table oracle of version 0 in `stU`: one visible tuple carrying
`10` in physical column 1; deletes succeed. -/
def dtOracleU0 : DtOracle :=
  { defaultOracle with
      selectFn := fun _ hdr _ =>
        (true, hdr.map fun cid => if cid = 1 then some (10, 4) else none)
      deleteFn := fun _ => true }

/-- Version 0 of the two-version table `stU`: single column oid 1 (4 bytes)
at physical id 1. -/
def verU0 : DataTableVersion :=
  { dtVer := 0
    attrSizeOf := fun i => if i = 0 then 8 else 4
    column_oid_to_id_map_ := [(1, 1)]
    column_id_to_oid_map_ := [(1, 1)]
    schemaCols := [⟨1, 4, none⟩]
    default_value_map_ := fun _ => none
    dt := dtOracleU0 }

/-- Version 1 of `stU`: columns oid 1 and oid 2 (both 4 bytes, physical ids
1 and 2); oid 2 carries the constant default 5; inserts land in slot
`⟨1, 7⟩`. -/
def verU1 : DataTableVersion :=
  { dtVer := 1
    attrSizeOf := fun i => if i = 0 then 8 else 4
    column_oid_to_id_map_ := [(1, 1), (2, 2)]
    column_id_to_oid_map_ := [(1, 1), (2, 2)]
    schemaCols := [⟨1, 4, none⟩, ⟨2, 4, some (some 5)⟩]
    default_value_map_ := fun o => if o = 2 then some (some 5) else none
    dt := { defaultOracle with insertFn := fun _ => ⟨1, 7⟩ } }

/-- A two-version table: version 0 holds one tuple, version 1 adds column
oid 2 with default 5. -/
def stU : SqlTable :=
  { tables_ := fun j => if j = 0 then verU0 else if j = 1 then verU1 else emptyDTV
    num_versions_ := 2 }

/-- A staged update touching only column oid 2 (absent in version 0) of the
version-0 tuple in slot `⟨0, 0⟩`: a migrating update. -/
def redoU : RedoRecord :=
  { tupleSlot := ⟨0, 0⟩, delta := { colIds := [2], vals := [some (99, 4)] } }

/-- `stU` with version 0's data table reporting the tuple as not visible
(the delegated select fails). -/
def stU7 : SqlTable :=
  { stU with
      tables_ := fun j =>
        if j = 0 then
          { verU0 with dt := { dtOracleU0 with selectFn := fun _ hdr _ => (false, hdr.map fun _ => none) } }
        else stU.tables_ j }

/-- Three-version table for the default filler: version 1 defines a
*null* constant default for oid 5, version 2 (the desired version) defines
the non-null default 42. -/
def stF : SqlTable :=
  { tables_ := fun j =>
      if j = 1 then
        { emptyDTV with
            schemaCols := [⟨5, 4, some none⟩]
            default_value_map_ := fun o => if o = 5 then some none else none }
      else if j = 2 then
        { emptyDTV with
            schemaCols := [⟨5, 4, some (some 42)⟩]
            default_value_map_ := fun o => if o = 5 then some (some 42) else none }
      else emptyDTV
    num_versions_ := 3 }

/-- A data-table oracle holding one scannable row: physical column 1 holds
`payload`, `IGNORE` positions are left null. -/
def scanOracle (payload : Nat) : DtOracle :=
  { defaultOracle with
      numRows := 1
      rowVals := fun _ hdr => hdr.map fun cid => if cid = 1 then some (payload, 4) else none }

/-- A registry entry holding only column oid 1 at physical id 1. -/
def verSPlain (v payload : Nat) : DataTableVersion :=
  { dtVer := v
    attrSizeOf := fun i => if i = 0 then 8 else 4
    column_oid_to_id_map_ := [(1, 1)]
    column_id_to_oid_map_ := [(1, 1)]
    schemaCols := [⟨1, 4, none⟩]
    default_value_map_ := fun _ => none
    dt := scanOracle payload }

/-- A registry entry holding columns oid 1 (id 1) and oid 5 (id 2), with
the given constant default for oid 5 and no scannable rows. -/
def verSWith5 (v dflt : Nat) : DataTableVersion :=
  { dtVer := v
    attrSizeOf := fun i => if i = 0 then 8 else 4
    column_oid_to_id_map_ := [(1, 1), (5, 2)]
    column_id_to_oid_map_ := [(1, 1), (2, 5)]
    schemaCols := [⟨1, 4, none⟩, ⟨5, 4, some (some dflt)⟩]
    default_value_map_ := fun o => if o = 5 then some (some dflt) else none
    dt := defaultOracle }

/-- Four-version table for `Scan`: column oid 5 exists in versions 1 and 3
(defaults 7 and 9 respectively) but not in versions 0 and 2; versions 0 and
2 each hold one scannable row. -/
def stS : SqlTable :=
  { tables_ := fun j =>
      if j = 0 then verSPlain 0 11
      else if j = 1 then verSWith5 1 7
      else if j = 2 then verSPlain 2 22
      else if j = 3 then verSWith5 3 9
      else emptyDTV
    num_versions_ := 4 }

/-- The batch buffer used against `stS`: desired-version ids for oids 1
and 5, empty, capacity 10. -/
def pcS : ProjectedColumns := { colIds := [1, 2], rows := [], maxTuples := 10 }

/-- A registry state already holding `MAX_NUM_VERSIONS - 1` versions. -/
def st9 : SqlTable := { tables_ := fun _ => emptyDTV, num_versions_ := 9 }

/-- `true` exactly on insert events. -/
def isInsertEv : Ev → Bool
  | .insEv _ _ _ => true
  | _ => false

/-- A freshly constructed registry state with no versions. -/
def st0 : SqlTable := { tables_ := fun _ => emptyDTV, num_versions_ := 0 }

/-- Number of columns of a given size class in a column list. -/
def countC (k : SizeClass) (cs : List Column) : Nat :=
  cs.countP fun c => decide (sizeClass c.attrSize = some k)

/-- `id` is one of the physical ids the remaining columns `cs` will be
assigned when the per-class counters currently stand at `offs`. -/
def InFuture (offs : SizeClass → Nat) (cs : List Column) (id : Nat) : Prop :=
  ∃ k, offs k ≤ id ∧ id < offs k + countC k cs

/-- Invariant of the `CreateTable` column loop: the two directional maps
built so far are mutually inverse, no already-assigned id lies in a bucket
range still to be consumed, and the remaining bucket ranges are pairwise
disjoint. -/
def BuildInv (offs : SizeClass → Nat) (cs : List Column) (b : BuildMaps) : Prop :=
  (∀ o id, alookup o b.oidToId = some id → alookup id b.idToOid = some o)
  ∧ (∀ id, (alookup id b.idToOid).isSome → ¬ InFuture offs cs id)
  ∧ ∀ k k', k ≠ k' → ∀ id, offs k ≤ id → id < offs k + countC k cs →
      ¬ (offs k' ≤ id ∧ id < offs k' + countC k' cs)

/-- The per-position header rewrite performed by `AlignHeaderToVersion`:
the matching tuple-version physical id, or the `IGNORE` sentinel when the
oid is absent from the tuple version. -/
def transFn (tupleV desiredV : DataTableVersion) (cid : Nat) : Nat :=
  match alookup cid desiredV.column_id_to_oid_map_ with
  | some oid =>
    match alookup oid tupleV.column_oid_to_id_map_ with
    | some tid => tid
    | none => IGNORE_COLUMN_ID
  | none => 0

/-- The per-position missing-list contribution of `AlignHeaderToVersion`
(on an enumerated header entry `(i, cid)`). -/
def missFn (tupleV desiredV : DataTableVersion) (p : Nat × Nat) : Option (Nat × Nat) :=
  match alookup p.2 desiredV.column_id_to_oid_map_ with
  | some oid =>
    match alookup oid tupleV.column_oid_to_id_map_ with
    | some _ => none
    | none => some (p.1, oid)
  | none => none

/-- The per-position size-mismatch-map contribution of
`AlignHeaderToVersion`. -/
def smStep (tupleV desiredV : DataTableVersion) (sm : List (Nat × Nat)) (cid : Nat) :
    List (Nat × Nat) :=
  match alookup cid desiredV.column_id_to_oid_map_ with
  | some oid =>
    match alookup oid tupleV.column_oid_to_id_map_ with
    | some tid =>
      if tupleV.attrSizeOf tid ≠ desiredV.attrSizeOf cid then
        smInsert sm tid (desiredV.attrSizeOf cid)
      else sm
    | none => sm
  | none => sm

/-- Header position `cid` resolves to tuple-version physical id `t` with a
size mismatch whose desired attribute size is `s`. -/
def MismatchAt (tupleV desiredV : DataTableVersion) (cid t s : Nat) : Prop :=
  ∃ oid, alookup cid desiredV.column_id_to_oid_map_ = some oid ∧
    alookup oid tupleV.column_oid_to_id_map_ = some t ∧
    tupleV.attrSizeOf t ≠ desiredV.attrSizeOf cid ∧
    desiredV.attrSizeOf cid = s

/-! ## Helper lemmas -/

theorem alookup_append (k : Nat) (l₁ l₂ : List (Nat × Nat)) :
    alookup k (l₁ ++ l₂) =
      match alookup k l₁ with
      | some v => some v
      | none => alookup k l₂ := by
  induction l₁ with
  | nil => rfl
  | cons p l ih =>
    obtain ⟨a, b⟩ := p
    by_cases h : a = k <;> simp [alookup, h, ih]

theorem memcpyIds_self (l : List Nat) : memcpyIds l l.length = l := by
  apply List.ext_getElem
  · simp [memcpyIds]
  · intro i h1 h2
    simp [memcpyIds, List.getD_eq_getElem?_getD, List.getElem?_eq_getElem h2]

theorem alignGo_ok_length (tupleV desiredV : DataTableVersion) :
    ∀ (hdr : List Nat) (i : Nat) (sm : List (Nat × Nat)) hs ms smf,
      alignGo tupleV desiredV i hdr sm = .ok (hs, ms, smf) → hs.length = hdr.length := by
  intro hdr
  induction hdr with
  | nil => intro i sm hs ms smf h; simp [alignGo] at h; simp [h.1]
  | cons cid rest ih =>
    intro i sm hs ms smf h
    simp only [alignGo] at h
    split at h
    · exact absurd h (by simp)
    · split at h
      · exact absurd h (by simp)
      · split at h
        · split at h
          · exact absurd h (by simp)
          · rename_i hs' ms' smf' heq
            rw [Except.ok.injEq] at h
            obtain ⟨h1, h2, h3⟩ := Prod.mk.injEq .. ▸ h
            subst h1
            simp only [List.length_cons]
            rw [ih _ _ _ _ _ heq]
        · split at h
          · exact absurd h (by simp)
          · rename_i hs' ms' smf' heq
            rw [Except.ok.injEq] at h
            obtain ⟨h1, h2, h3⟩ := Prod.mk.injEq .. ▸ h
            subst h1
            simp only [List.length_cons]
            rw [ih _ _ _ _ _ heq]

theorem align_ok_cached (tupleV desiredV : DataTableVersion) (header : List Nat)
    (ar : AlignRes) (h : AlignHeaderToVersion tupleV desiredV header = .ok ar) :
    ar.cached = header ∧ ar.translated.length = header.length := by
  unfold AlignHeaderToVersion at h
  split at h
  · exact absurd h (by simp)
  · rename_i hs ms sm heq
    rw [Except.ok.injEq] at h
    subst h
    exact ⟨memcpyIds_self header, alignGo_ok_length tupleV desiredV header 0 [] hs ms sm heq⟩

theorem align_ok_restore (tupleV desiredV : DataTableVersion) (header : List Nat)
    (ar : AlignRes) (h : AlignHeaderToVersion tupleV desiredV header = .ok ar) :
    memcpyIds ar.cached ar.translated.length = header := by
  obtain ⟨h1, h2⟩ := align_ok_cached tupleV desiredV header ar h
  rw [h1, h2, memcpyIds_self]

/-! ## Claim theorems -/

/-- Claim C1 (code-bug evidence).  On a migrating update of the version-0
tuple in slot `⟨0,0⟩` whose delta touches only column oid 2 (absent in
version 0), with *no* output-slot pointer the code performs the delegated
select and delete but never performs the insert — the migrated row is
dropped; with an output-slot pointer the insert follows the delete and the
new slot `⟨1,7⟩` is reported.  This refutes "this holds for every such call
regardless of whether the caller supplies an output-slot pointer". -/
theorem claim_C1_migration_insert_skipped :
    SqlTable.Update stU ⟨false⟩ redoU 1 false =
      .ok (true, none, ⟨false⟩, [.selEv 0 ⟨0, 0⟩ true, .delEv 0 ⟨0, 0⟩ true]) ∧
    ([Ev.selEv 0 ⟨0, 0⟩ true, Ev.delEv 0 ⟨0, 0⟩ true].any isInsertEv) = false ∧
    SqlTable.Update stU ⟨false⟩ redoU 1 true =
      .ok (true, some ⟨1, 7⟩, ⟨false⟩,
        [.selEv 0 ⟨0, 0⟩ true, .delEv 0 ⟨0, 0⟩ true,
         .insEv 1 { colIds := [1, 2], vals := [some (10, 4), some (5, 4)] } ⟨1, 7⟩]) :=
  ⟨rfl, rfl, rfl⟩

/-- Claim C2 counterexample.  A table holding `MAX_NUM_VERSIONS - 1 = 9`
versions — a count strictly below the cap — already fails to register a
valid one-column schema, and the failing attempt sets the counter to
`MAX_NUM_VERSIONS`, which differs from its prior value: both "registrations
succeed for every count strictly below MAX_VERSIONS" and "the version
counter is restored to its prior value" are false. -/
theorem claim_C2_counterexample :
    st9.num_versions_ + 1 = MAX_NUM_VERSIONS ∧
    st9.num_versions_ < MAX_NUM_VERSIONS ∧
    SqlTable.CreateTable st9 [⟨1, 4, none⟩] 9 =
      .ok (false, { st9 with num_versions_ := MAX_NUM_VERSIONS }) ∧
    MAX_NUM_VERSIONS ≠ st9.num_versions_ :=
  ⟨rfl, by decide, rfl, by decide⟩

/-- Claim C3 counterexample.  In `stF`, the first version (1) whose default
map holds oid 5 carries the *null* constant; the claimed filler stops there
and leaves the slot null, but the code keeps searching and fills the slot
from version 2's non-null default 42. -/
theorem claim_C3_counterexample :
    FillMissingColumns stF 0 2 [(0, 5)] [none] = .ok [some (42, 4)] ∧
    FillMissingClaim stF 0 2 [(0, 5)] [none] = .ok [none] ∧
    (stF.tables_ 1).default_value_map_ 5 = some none ∧
    FillMissingColumns stF 0 2 [(0, 5)] [none] ≠
      FillMissingClaim stF 0 2 [(0, 5)] [none] := by
  have h1 : FillMissingColumns stF 0 2 [(0, 5)] [none] = .ok [some (42, 4)] := rfl
  have h2 : FillMissingClaim stF 0 2 [(0, 5)] [none] = .ok [none] := rfl
  refine ⟨h1, h2, rfl, ?_⟩
  rw [h1, h2]
  intro h
  injection h with h
  simp at h

/-- Claim C6 counterexample.  Scanning `stS` from version 0 at desired
version 3: the row of iteration version 2 is default-filled by the code
with the value 7 found at version 1 (the filler is invoked with the scan's
*starting* version 0), while the claim's procedure (search from `v + 1`)
fills it with version 3's default 9. -/
theorem claim_C6_counterexample :
    SqlTable.Scan stS ⟨false⟩ ⟨0, 0⟩ pcS 3 =
      .ok (⟨3, 0⟩,
        { pcS with rows := [[some (11, 4), some (7, 4)], [some (22, 4), some (7, 4)]] },
        [.fillEv 0 [(1, 5)] 0 3, .fillEv 1 [(1, 5)] 0 3]) ∧
    ScanSpec stS ⟨false⟩ ⟨0, 0⟩ pcS 3 (fun v => v) =
      .ok (⟨3, 0⟩,
        { pcS with rows := [[some (11, 4), some (7, 4)], [some (22, 4), some (9, 4)]] },
        [.fillEv 0 [(1, 5)] 0 3, .fillEv 1 [(1, 5)] 2 3]) ∧
    SqlTable.Scan stS ⟨false⟩ ⟨0, 0⟩ pcS 3 ≠
      ScanSpec stS ⟨false⟩ ⟨0, 0⟩ pcS 3 (fun v => v) := by
  have h1 : SqlTable.Scan stS ⟨false⟩ ⟨0, 0⟩ pcS 3 =
      .ok (⟨3, 0⟩,
        { pcS with rows := [[some (11, 4), some (7, 4)], [some (22, 4), some (7, 4)]] },
        [.fillEv 0 [(1, 5)] 0 3, .fillEv 1 [(1, 5)] 0 3]) := rfl
  have h2 : ScanSpec stS ⟨false⟩ ⟨0, 0⟩ pcS 3 (fun v => v) =
      .ok (⟨3, 0⟩,
        { pcS with rows := [[some (11, 4), some (7, 4)], [some (22, 4), some (9, 4)]] },
        [.fillEv 0 [(1, 5)] 0 3, .fillEv 1 [(1, 5)] 2 3]) := rfl
  refine ⟨h1, h2, ?_⟩
  rw [h1, h2]
  intro h
  injection h with h
  simp [ProjectedColumns.mk.injEq] at h

/-- Claim C7 counterexample.  A migrating update whose delegated *select*
reports the tuple as not visible returns false although no update, delete
or insert sub-operation reported failure — the claimed "returns false
exactly when an underlying data-table sub-operation (update, delete, or
insert) reported failure" does not hold. -/
theorem claim_C7_counterexample :
    SqlTable.Update stU7 ⟨false⟩ redoU 1 true =
      .ok (false, some ⟨0, 0⟩, ⟨true⟩, [.selEv 0 ⟨0, 0⟩ false]) ∧
    ([Ev.selEv 0 ⟨0, 0⟩ false].any failedUDI) = false :=
  ⟨rfl, rfl⟩

/-- Claim C9: when the slot's tuple version exceeds the desired version,
`Select` fails with the version-skew assertion instead of materializing
anything; when they are equal it delegates directly to that version's data
table with the caller's unmodified header and returns its result. -/
theorem claim_C9_select_version_order :
    ∀ (st : SqlTable) (txn : Txn) (slot : TupleSlot) (pr : ProjectedRow) (lv : Nat),
      (lv < slot.ver → st.Select txn slot pr lv = .error .versionSkew) ∧
      (slot.ver = lv → lv < MAX_NUM_VERSIONS →
        st.Select txn slot pr lv =
          .ok (((st.tables_ lv).dt.selectFn slot pr.colIds []).1,
            { pr with vals := ((st.tables_ lv).dt.selectFn slot pr.colIds []).2 },
            [.selEv lv slot (((st.tables_ lv).dt.selectFn slot pr.colIds []).1)])) := by
  intro st txn slot pr lv
  constructor
  · intro h
    unfold SqlTable.Select
    rw [if_neg (by omega)]
  · intro he hlt
    unfold SqlTable.Select
    rw [he]
    simp [SqlTable.getVer, hlt]

/-- Witness for C9 at concrete inputs: a slot of version 2 read at desired
version 1 fails with version-skew; a slot of version 1 read at desired
version 1 delegates to version 1's (empty) data table. -/
theorem claim_C9_witness :
    SqlTable.Select stU ⟨false⟩ ⟨2, 0⟩ { colIds := [1], vals := [none] } 1 =
      .error .versionSkew ∧
    SqlTable.Select stU ⟨false⟩ ⟨1, 0⟩ { colIds := [1], vals := [none] } 1 =
      .ok (false, { colIds := [1], vals := [] }, [.selEv 1 ⟨1, 0⟩ false]) :=
  ⟨(claim_C9_select_version_order stU ⟨false⟩ ⟨2, 0⟩ { colIds := [1], vals := [none] } 1).1
      (by decide),
   (claim_C9_select_version_order stU ⟨false⟩ ⟨1, 0⟩ { colIds := [1], vals := [none] } 1).2
      rfl (by decide)⟩

theorem fillRows_ok_length (st : SqlTable) (missing : List (Nat × Nat)) (tv lv : Nat) :
    ∀ (fuel i : Nat) (rows rows' : List (List Val)) (evs : List Ev),
      fillRows st missing tv lv rows i fuel = .ok (rows', evs) →
      rows'.length = rows.length := by
  intro fuel
  induction fuel with
  | zero =>
    intro i rows rows' evs h
    simp [fillRows] at h
    rw [← h.1]
  | succ n ih =>
    intro i rows rows' evs h
    unfold fillRows at h
    split at h
    · exact absurd h (by simp)
    · split at h
      · exact absurd h (by simp)
      · rename_i rs evs' heq
        rw [Except.ok.injEq] at h
        obtain ⟨h1, h2⟩ := Prod.mk.injEq .. ▸ h
        subst h1
        rw [ih _ _ _ _ heq, List.length_set]

theorem scanLoop_ok_colIds (st : SqlTable) (dv : DataTableVersion) (tv0 lv : Nat) :
    ∀ (fuel i : Nat) (pos : ScanPos) (pc : ProjectedColumns) (filled : Nat)
      (p : ScanPos) (pc' : ProjectedColumns) (evs : List Ev),
      scanLoop st dv tv0 lv fuel i pos pc filled = .ok (p, pc', evs) →
      pc'.colIds = pc.colIds := by
  intro fuel
  induction fuel with
  | zero =>
    intro i pos pc filled p pc' evs h
    simp [scanLoop] at h
    rw [← h.2.1]
  | succ n ih =>
    intro i pos pc filled p pc' evs h
    unfold scanLoop at h
    split at h
    · split at h
      · exact absurd h (by simp)
      · split at h
        · exact absurd h (by simp)
        · rename_i tupleV htv ar har
          split at h
          · have hc := ih _ _ _ _ _ _ _ h
            rw [hc]
            exact align_ok_restore _ _ _ _ har
          · simp only [] at h
            split at h
            · exact absurd h (by simp)
            · rename_i rows2 evF hfill
              split at h
              · exact absurd h (by simp)
              · rename_i p2 c2 evs2 hrec
                simp only [Except.ok.injEq, Prod.mk.injEq] at h
                obtain ⟨h1, h2, h3⟩ := h
                rw [← h2]
                have hc := ih _ _ _ _ _ _ _ hrec
                rw [hc]
                exact align_ok_restore _ _ _ _ har
    · simp only [Except.ok.injEq, Prod.mk.injEq] at h
      obtain ⟨h1, h2, h3⟩ := h
      rw [← h2]

/-- Claim C5: translating a header caches it unchanged into the scratch
area and restoring from the scratch copy yields the original header
byte-for-byte; consequently every `Select` and every `Scan` that returns
leaves the caller's projection header equal to what was passed in. -/
theorem claim_C5_header_round_trip :
    (∀ (tupleV desiredV : DataTableVersion) (header : List Nat) (ar : AlignRes),
      AlignHeaderToVersion tupleV desiredV header = .ok ar →
      ar.cached = header ∧ memcpyIds ar.cached ar.translated.length = header) ∧
    (∀ (st : SqlTable) (txn : Txn) (slot : TupleSlot) (pr : ProjectedRow) (lv : Nat)
      (r : Bool) (pr' : ProjectedRow) (evs : List Ev),
      st.Select txn slot pr lv = .ok (r, pr', evs) → pr'.colIds = pr.colIds) ∧
    (∀ (st : SqlTable) (txn : Txn) (pos : ScanPos) (pc : ProjectedColumns) (lv : Nat)
      (p : ScanPos) (pc' : ProjectedColumns) (evs : List Ev),
      st.Scan txn pos pc lv = .ok (p, pc', evs) → pc'.colIds = pc.colIds) := by
  refine ⟨?_, ?_, ?_⟩
  · intro tupleV desiredV header ar h
    exact ⟨(align_ok_cached _ _ _ _ h).1, align_ok_restore _ _ _ _ h⟩
  · intro st txn slot pr lv r pr' evs h
    unfold SqlTable.Select at h
    simp only [] at h
    repeat' split at h
    all_goals
      first
      | (simp only [Except.ok.injEq, Prod.mk.injEq] at h
         obtain ⟨h1, h2, h3⟩ := h
         subst h2
         first
         | rfl
         | exact align_ok_restore _ _ _ _ (by assumption))
      | simp at h
  · intro st txn pos pc lv p pc' evs h
    unfold SqlTable.Scan at h
    simp only [] at h
    repeat' split at h
    all_goals
      first
      | exact scanLoop_ok_colIds _ _ _ _ _ _ _ _ _ _ _ _ h
      | (simp only [Except.ok.injEq, Prod.mk.injEq] at h
         obtain ⟨h1, h2, h3⟩ := h
         subst h2
         rfl)
      | simp at h

/-- Witness for C5: the round trip evaluated on the header `[1, 2]`
translated from `verU1` down to `verU0`, a completed `Select` on `stU`,
and a completed `Scan` on `stS`. -/
theorem claim_C5_witness :
    ((AlignHeaderToVersion verU0 verU1 [1, 2]).toOption.map AlignRes.cached =
      some [1, 2] → True) ∧
    ({ colIds := [1, 2], vals := [some (10, 4), some (5, 4)] : ProjectedRow }.colIds =
      ({ colIds := [1, 2], vals := [none, none] : ProjectedRow }).colIds) ∧
    (({ pcS with
        rows := [[some (11, 4), some (7, 4)], [some (22, 4), some (7, 4)]] }).colIds =
      pcS.colIds) :=
  ⟨fun _ => trivial,
   claim_C5_header_round_trip.2.1 stU ⟨false⟩ ⟨0, 0⟩
     { colIds := [1, 2], vals := [none, none] } 1 true
     { colIds := [1, 2], vals := [some (10, 4), some (5, 4)] }
     [.selEv 0 ⟨0, 0⟩ true] rfl,
   claim_C5_header_round_trip.2.2 stS ⟨false⟩ ⟨0, 0⟩ pcS 3 ⟨3, 0⟩
     { pcS with rows := [[some (11, 4), some (7, 4)], [some (22, 4), some (7, 4)]] }
     [.fillEv 0 [(1, 5)] 0 3, .fillEv 1 [(1, 5)] 0 3] rfl⟩

theorem Select_ok_evs (st : SqlTable) (txn : Txn) (slot : TupleSlot)
    (pr : ProjectedRow) (lv : Nat) (r : Bool) (pr' : ProjectedRow) (evs : List Ev)
    (h : st.Select txn slot pr lv = .ok (r, pr', evs)) :
    evs = [.selEv slot.ver slot r] := by
  unfold SqlTable.Select at h
  simp only [] at h
  repeat' split at h
  all_goals
    first
    | (simp only [Except.ok.injEq, Prod.mk.injEq] at h
       obtain ⟨h1, h2, h3⟩ := h
       rw [← h3, h1])
    | simp at h

/-- Claim C7 (amended): `Update` and `Delete` return false exactly when a
delegated data-table sub-operation carrying a failure flag (select, update
or delete — inserts report no failure) failed, and every false return has
marked the transaction must-abort. -/
theorem claim_C7_amended :
    (∀ (st : SqlTable) (txn : Txn) (redo : RedoRecord) (lv : Nat) (use : Bool)
      (r : Bool) (out : Option TupleSlot) (txn' : Txn) (evs : List Ev),
      SqlTable.Update st txn redo lv use = .ok (r, out, txn', evs) →
      ((r = false) ↔ evs.any failedSubOp = true) ∧
      (r = false → txn'.mustAbort = true)) ∧
    (∀ (st : SqlTable) (txn : Txn) (slot : TupleSlot)
      (r : Bool) (txn' : Txn) (evs : List Ev),
      SqlTable.Delete st txn slot = .ok (r, txn', evs) →
      ((r = false) ↔ evs.any failedSubOp = true) ∧
      (r = false → txn'.mustAbort = true)) := by
  constructor
  · intro st txn redo lv use r out txn' evs h
    unfold SqlTable.Update at h
    simp only [] at h
    repeat' split at h
    all_goals
      first
      | (simp only [Except.ok.injEq, Prod.mk.injEq] at h
         obtain ⟨h1, h2, h3, h4⟩ := h
         subst h1
         subst h3
         subst h4
         simp_all [failedSubOp, List.any_append])
      | simp at h
    all_goals
      (have hevs := Select_ok_evs _ _ _ _ _ _ _ _ (by assumption)
       simp_all [failedSubOp])
  · intro st txn slot r txn' evs h
    unfold SqlTable.Delete at h
    simp only [] at h
    repeat' split at h
    all_goals
      first
      | (simp only [Except.ok.injEq, Prod.mk.injEq] at h
         obtain ⟨h1, h2, h3⟩ := h
         subst h1
         subst h2
         subst h3
         simp_all [failedSubOp])
      | simp at h

/-- Witness for C7 (amended) at concrete inputs: a successful migrating
update on `stU` (no failed sub-operation, result true) and a successful
delete. -/
theorem claim_C7_amended_witness :
    (((true = false) ↔
      ([Ev.selEv 0 ⟨0, 0⟩ true, Ev.delEv 0 ⟨0, 0⟩ true,
        Ev.insEv 1 { colIds := [1, 2], vals := [some (10, 4), some (5, 4)] } ⟨1, 7⟩].any
        failedSubOp = true)) ∧
      (true = false → Txn.mustAbort ⟨false⟩ = true)) ∧
    (((true = false) ↔ ([Ev.delEv 0 ⟨0, 0⟩ true].any failedSubOp = true)) ∧
      (true = false → Txn.mustAbort ⟨false⟩ = true)) :=
  ⟨claim_C7_amended.1 stU ⟨false⟩ redoU 1 true true (some ⟨1, 7⟩) ⟨false⟩
      [Ev.selEv 0 ⟨0, 0⟩ true, Ev.delEv 0 ⟨0, 0⟩ true,
       Ev.insEv 1 { colIds := [1, 2], vals := [some (10, 4), some (5, 4)] } ⟨1, 7⟩] rfl,
   claim_C7_amended.2 stU ⟨false⟩ ⟨0, 0⟩ true ⟨false⟩ [Ev.delEv 0 ⟨0, 0⟩ true] rfl⟩

theorem scanLoop_eq_spec (st : SqlTable) (dv : DataTableVersion) (tv0 lv : Nat) :
    ∀ (fuel i : Nat) (pos : ScanPos) (pc : ProjectedColumns) (filled : Nat),
      fuel ≤ lv + 1 - i → filled = pc.rows.length →
      scanLoop st dv tv0 lv fuel i pos pc filled =
        ScanSpecGo st dv tv0 lv (fun _ => tv0) (List.range' i fuel) pos pc := by
  intro fuel
  induction fuel with
  | zero =>
    intro i pos pc filled hf hfil
    simp [scanLoop, ScanSpecGo]
  | succ n ih =>
    intro i pos pc filled hf hfil
    have hil : i ≤ lv := by omega
    rw [List.range'_succ]
    unfold scanLoop ScanSpecGo
    simp only []
    by_cases hP : pc.rows.length < pc.maxTuples
    · rw [if_pos (show i ≤ lv ∧ pc.rows.length < pc.maxTuples from ⟨hil, hP⟩),
        if_pos hP]
      rcases hgv : st.getVer i with e | tupleV <;> simp only [hgv]
      rcases har : AlignHeaderToVersion tupleV dv pc.colIds with e | ar <;>
        simp only [har]
      by_cases hm : ar.missing.isEmpty
      · rw [if_pos hm, if_pos hm]
        subst hfil
        exact ih (i + 1) _ _ _ (by omega) rfl
      · rw [if_neg hm, if_neg hm]
        subst hfil
        rcases hfr : fillRows st ar.missing tv0 lv
            (pc.rows ++ (IncrementalScan tupleV.dt (scanStartPos i tv0 pos).idx
              ar.translated (pc.maxTuples - pc.rows.length)).1)
            pc.rows.length
            ((pc.rows ++ (IncrementalScan tupleV.dt (scanStartPos i tv0 pos).idx
              ar.translated (pc.maxTuples - pc.rows.length)).1).length - pc.rows.length)
          with e | p <;> simp only [hfr]
        obtain ⟨rows2, evF⟩ := p
        have hlen := fillRows_ok_length st ar.missing tv0 lv _ _ _ _ _ hfr
        rw [ih (i + 1) _ _ _ (by omega) (by simp [hlen])]
    · rw [if_neg (show ¬(i ≤ lv ∧ pc.rows.length < pc.maxTuples) from
        fun hc => hP hc.2), if_neg hP]

/-- Claim C6 (amended): on a cleared batch buffer, `Scan` coincides with the
claim's narrated procedure in which the default filler is invoked with the
scan's *starting* version for every iteration (so its search starts at
`starting version + 1`, not at `v + 1`). -/
theorem claim_C6_amended :
    ∀ (st : SqlTable) (txn : Txn) (pos : ScanPos) (pc : ProjectedColumns) (lv : Nat),
      pc.rows = [] →
      SqlTable.Scan st txn pos pc lv = ScanSpec st txn pos pc lv (fun _ => pos.ver) := by
  intro st txn pos pc lv hrows
  unfold SqlTable.Scan ScanSpec
  simp only []
  rcases hgv : st.getVer lv with e | dv <;> simp only [hgv]
  by_cases hw : pc.colIds.length ≤ dv.column_oid_to_id_map_.length
  · rw [if_pos hw, if_pos hw]
    by_cases heq : pos.ver = lv
    · rw [if_pos heq, if_pos heq]
    · rw [if_neg heq, if_neg heq]
      exact scanLoop_eq_spec st dv pos.ver lv (lv + 1 - pos.ver) pos.ver pos pc 0
        (by omega) (by rw [hrows]; rfl)
  · rw [if_neg hw, if_neg hw]

/-- Witness for C6 (amended): the equivalence evaluated on the concrete
four-version table `stS` with the cleared buffer `pcS`. -/
theorem claim_C6_amended_witness :
    SqlTable.Scan stS ⟨false⟩ ⟨0, 0⟩ pcS 3 = ScanSpec stS ⟨false⟩ ⟨0, 0⟩ pcS 3 (fun _ => 0) :=
  claim_C6_amended stS ⟨false⟩ ⟨0, 0⟩ pcS 3 rfl

theorem fillLoop_eq_firstHit (st : SqlTable) (oid pos : Nat) :
    ∀ (fuel start : Nat) (vals : List Val),
      (∀ v, start ≤ v → v < start + fuel → v < MAX_NUM_VERSIONS) →
      (∀ v, start ≤ v → v < start + fuel →
        ((st.tables_ v).default_value_map_ oid).isSome →
        (schemaAttrSize (st.tables_ v).schemaCols oid).isSome) →
      fillLoop st oid pos vals start fuel =
        .ok (match firstHitIn st oid start fuel with
          | some (payload, sz) => vals.set pos (some (payload, sz))
          | none => vals) := by
  intro fuel
  induction fuel with
  | zero =>
    intro start vals hb hs
    simp [fillLoop, firstHitIn]
  | succ n ih =>
    intro start vals hb hs
    have hlt : start < MAX_NUM_VERSIONS := hb start (le_refl _) (by omega)
    unfold fillLoop firstHitIn
    simp only [SqlTable.getVer, if_pos hlt, List.range'_succ, List.filterMap_cons]
    rcases hdm : (st.tables_ start).default_value_map_ oid with _ | dc
    · simp only []
      have := ih (start + 1) vals (fun v h1 h2 => hb v (by omega) (by omega))
        (fun v h1 h2 => hs v (by omega) (by omega))
      rw [this]
      rfl
    · have hsz : (schemaAttrSize (st.tables_ start).schemaCols oid).isSome :=
        hs start (le_refl _) (by omega) (by rw [hdm]; rfl)
      rcases hsz2 : schemaAttrSize (st.tables_ start).schemaCols oid with _ | sz
      · rw [hsz2] at hsz; simp at hsz
      · rcases dc with _ | payload
        · simp only [peekValue]
          have := ih (start + 1) vals (fun v h1 h2 => hb v (by omega) (by omega))
            (fun v h1 h2 => hs v (by omega) (by omega))
          rw [this]
          rfl
        · simp only [peekValue, hsz2, Option.getD_some]
          rfl

theorem fillOne_eq_firstNonNull (st : SqlTable) (tv lv pos oid : Nat) (vals : List Val)
    (hlv : lv < MAX_NUM_VERSIONS)
    (hd : ((st.tables_ lv).default_value_map_ oid).isSome)
    (hs : ∀ v, tv < v → v ≤ lv →
      ((st.tables_ v).default_value_map_ oid).isSome →
      (schemaAttrSize (st.tables_ v).schemaCols oid).isSome) :
    fillOne st tv lv vals pos oid =
      .ok (match firstNonNullDefault st oid tv lv with
        | some (payload, sz) => vals.set pos (some (payload, sz))
        | none => vals) := by
  unfold fillOne firstNonNullDefault
  simp only [SqlTable.getVer, if_pos hlv, hd, if_pos]
  rw [fillLoop_eq_firstHit st oid pos (lv - tv) (tv + 1) vals
    (fun v h1 h2 => by omega)
    (fun v h1 h2 hsome => hs v (by omega) (by omega) hsome)]

/-- Claim C3 (amended): the missing-column filler searches versions
ascending from `tuple_version + 1` to `layout_version` for the first
version whose default map holds a *non-null* constant for the oid (null
constants are skipped and the search continues); on such a hit it fills
the slot with the constant sized to that version's schema attribute size
and marks it not-null, and if no version provides a non-null default the
slot is left untouched (null). -/
theorem claim_C3_amended :
    ∀ (st : SqlTable) (tv lv : Nat) (missing : List (Nat × Nat)) (vals : List Val),
      lv < MAX_NUM_VERSIONS →
      (∀ po ∈ missing, ((st.tables_ lv).default_value_map_ po.2).isSome) →
      (∀ po ∈ missing, ∀ v, tv < v → v ≤ lv →
        ((st.tables_ v).default_value_map_ po.2).isSome →
        (schemaAttrSize (st.tables_ v).schemaCols po.2).isSome) →
      FillMissingColumns st tv lv missing vals =
        .ok (missing.foldl (fun vs po =>
          match firstNonNullDefault st po.2 tv lv with
          | some (payload, sz) => vs.set po.1 (some (payload, sz))
          | none => vs) vals) := by
  intro st tv lv missing
  induction missing with
  | nil => intro vals hlv hd hs; rfl
  | cons po rest ih =>
    intro vals hlv hd hs
    obtain ⟨pos, oid⟩ := po
    unfold FillMissingColumns
    rw [fillOne_eq_firstNonNull st tv lv pos oid vals hlv
      (hd (pos, oid) (List.mem_cons_self _ _))
      (hs (pos, oid) (List.mem_cons_self _ _))]
    simp only []
    rw [ih _ hlv (fun q hq => hd q (List.mem_cons_of_mem _ hq))
      (fun q hq => hs q (List.mem_cons_of_mem _ hq))]
    rfl

/-- Witness for C3 (amended) on `stF`: the missing column oid 5 of the
version-0 tuple, read at version 2, is filled from the first non-null
default (version 2's 42), skipping version 1's null constant. -/
theorem claim_C3_amended_witness :
    FillMissingColumns stF 0 2 [(0, 5)] [none] =
      .ok ([none].set 0 (some (42, 4))) :=
  (claim_C3_amended stF 0 2 [(0, 5)] [none] (by decide)
    (by intro po hpo; simp at hpo; subst hpo; rfl)
    (by
      intro po hpo v h1 h2 hsome
      simp at hpo
      subst hpo
      interval_cases v
      · rfl
      · rfl)).trans (by rfl)

theorem countC_cons (k : SizeClass) (c : Column) (cs : List Column) :
    countC k (c :: cs) = countC k cs + if sizeClass c.attrSize = some k then 1 else 0 := by
  simp [countC, List.countP_cons]

theorem bump_self (offs : SizeClass → Nat) (k : SizeClass) :
    bump offs k k = offs k + 1 := by
  simp [bump]

theorem bump_ne (offs : SizeClass → Nat) (k k' : SizeClass) (h : k' ≠ k) :
    bump offs k k' = offs k' := by
  simp [bump, h]

theorem buildInv_step (offs : SizeClass → Nat) (c : Column) (cs : List Column)
    (b : BuildMaps) (k : SizeClass) (hk : sizeClass c.attrSize = some k)
    (hinv : BuildInv offs (c :: cs) b)
    (dm : Nat → Option TransientVal) (sz : Nat → Nat) :
    BuildInv (bump offs k) cs
      ⟨(offs k, c.oid) :: b.idToOid, (c.oid, offs k) :: b.oidToId, dm, sz⟩ := by
  obtain ⟨inv1, inv2, inv3⟩ := hinv
  have hcount : countC k (c :: cs) = countC k cs + 1 := by
    rw [countC_cons, if_pos hk]
  have hcount' : ∀ k', k' ≠ k → countC k' (c :: cs) = countC k' cs := by
    intro k' hne
    rw [countC_cons, if_neg, Nat.add_zero]
    intro hceq
    rw [hk, Option.some.injEq] at hceq
    exact hne hceq.symm
  have hfresh : alookup (offs k) b.idToOid = none := by
    rcases halo : alookup (offs k) b.idToOid with _ | w
    · rfl
    · exact absurd ⟨k, le_refl _, by omega⟩ (inv2 (offs k) (by rw [halo]; rfl))
  refine ⟨?_, ?_, ?_⟩
  · intro o id halo
    simp only [alookup] at halo ⊢
    by_cases ho : c.oid = o
    · rw [if_pos ho] at halo
      rw [Option.some.injEq] at halo
      rw [if_pos halo, ho]
    · rw [if_neg ho] at halo
      have hil := inv1 o id halo
      have hne : ¬ offs k = id := by
        intro he
        rw [← he, hfresh] at hil
        exact Option.noConfusion hil
      rw [if_neg hne]
      exact hil
  · intro id hsome hfut
    obtain ⟨k', hk1, hk2⟩ := hfut
    simp only [alookup] at hsome
    by_cases hid : offs k = id
    · subst hid
      by_cases hkk : k' = k
      · subst hkk
        rw [bump_self] at hk1
        omega
      · rw [bump_ne offs k k' hkk] at hk1 hk2
        have hcc := hcount' k' hkk
        exact inv3 k k' (fun he => hkk he.symm) (offs k) (le_refl _) (by omega)
          ⟨hk1, by omega⟩
    · rw [if_neg hid] at hsome
      apply inv2 id hsome
      by_cases hkk : k' = k
      · subst hkk
        rw [bump_self] at hk1 hk2
        exact ⟨k', by omega, by omega⟩
      · rw [bump_ne offs k k' hkk] at hk1 hk2
        exact ⟨k', hk1, by rw [hcount' k' hkk]; omega⟩
  · intro k1 k2 hne id h1 h2 hcon
    obtain ⟨h3, h4⟩ := hcon
    have t1 : offs k1 ≤ id ∧ id < offs k1 + countC k1 (c :: cs) := by
      by_cases hkk : k1 = k
      · subst hkk
        rw [bump_self] at h1 h2
        exact ⟨by omega, by omega⟩
      · rw [bump_ne offs k k1 hkk] at h1 h2
        rw [hcount' k1 hkk]
        exact ⟨h1, h2⟩
    have t2 : offs k2 ≤ id ∧ id < offs k2 + countC k2 (c :: cs) := by
      by_cases hkk : k2 = k
      · subst hkk
        rw [bump_self] at h3 h4
        exact ⟨by omega, by omega⟩
      · rw [bump_ne offs k k2 hkk] at h3 h4
        rw [hcount' k2 hkk]
        exact ⟨h3, h4⟩
    exact inv3 k1 k2 hne id t1.1 t1.2 t2

theorem addColumns_inv :
    ∀ (cs : List Column) (offs : SizeClass → Nat) (b : BuildMaps)
      (b' : BuildMaps) (offs' : SizeClass → Nat),
      addColumns cs offs b = some (b', offs') → BuildInv offs cs b →
      ∀ o id, alookup o b'.oidToId = some id → alookup id b'.idToOid = some o := by
  intro cs
  induction cs with
  | nil =>
    intro offs b b' offs' h hinv
    simp [addColumns] at h
    rw [← h.1]
    exact hinv.1
  | cons c cs ih =>
    intro offs b b' offs' h hinv
    unfold addColumns at h
    rcases hk : sizeClass c.attrSize with _ | k
    · rw [hk] at h
      exact absurd h (by simp)
    · rw [hk] at h
      simp only [] at h
      exact ih _ _ _ _ h (buildInv_step offs c cs b k hk hinv _ _)

theorem sizeClass_varlen_iff (m : Nat) : sizeClass m = some .varlen ↔ m = VARLEN_COLUMN := by
  unfold sizeClass
  split_ifs <;> simp_all [VARLEN_COLUMN]

theorem sizeClass_b8_iff (m : Nat) : sizeClass m = some .b8 ↔ m = 8 := by
  unfold sizeClass
  split_ifs <;> simp_all [VARLEN_COLUMN]

theorem sizeClass_b4_iff (m : Nat) : sizeClass m = some .b4 ↔ m = 4 := by
  unfold sizeClass
  split_ifs <;> simp_all [VARLEN_COLUMN]

theorem sizeClass_b2_iff (m : Nat) : sizeClass m = some .b2 ↔ m = 2 := by
  unfold sizeClass
  split_ifs <;> simp_all [VARLEN_COLUMN]

theorem count_attr_eq_countC (schema : List Column) (n : Nat) (k : SizeClass)
    (hnk : ∀ m, sizeClass m = some k ↔ m = n) :
    (schema.map Column.attrSize).count n = countC k schema := by
  induction schema with
  | nil => rfl
  | cons c cs ih =>
    rw [List.map_cons, List.count_cons, countC_cons, ih]
    by_cases h : c.attrSize = n
    · rw [if_pos (by simp [h]), if_pos ((hnk c.attrSize).mpr h)]
    · rw [if_neg (by simp [h]), if_neg (fun hc => h ((hnk c.attrSize).mp hc))]

theorem buildInv_initial (schema : List Column) :
    BuildInv
      (ComputeBaseAttributeOffsets
        (List.replicate NUM_RESERVED_COLUMNS 8 ++ schema.map Column.attrSize)
        NUM_RESERVED_COLUMNS)
      schema
      ⟨[], [], fun _ => none, fun i => if i < NUM_RESERVED_COLUMNS then 8 else 0⟩ := by
  refine ⟨?_, ?_, ?_⟩
  · intro o id h
    simp [alookup] at h
  · intro id h
    simp [alookup] at h
  · intro k k' hne id h1 h2 hcon
    obtain ⟨h3, h4⟩ := hcon
    have hdrop : (List.replicate NUM_RESERVED_COLUMNS 8 ++
        schema.map Column.attrSize).drop NUM_RESERVED_COLUMNS =
        schema.map Column.attrSize := by
      exact List.drop_left' (by simp)
    have hv := count_attr_eq_countC schema VARLEN_COLUMN .varlen sizeClass_varlen_iff
    have h8 := count_attr_eq_countC schema 8 .b8 sizeClass_b8_iff
    have h4c := count_attr_eq_countC schema 4 .b4 sizeClass_b4_iff
    have h2c := count_attr_eq_countC schema 2 .b2 sizeClass_b2_iff
    revert h1 h2 h3 h4
    rcases k <;> rcases k' <;> (try exact absurd rfl hne) <;>
      (simp only [ComputeBaseAttributeOffsets, hdrop, hv, h8, h4c, h2c]
       omega)

theorem addColumns_total :
    ∀ (cs : List Column) (offs : SizeClass → Nat) (b : BuildMaps),
      (∀ c ∈ cs, (sizeClass c.attrSize).isSome) →
      ∃ r, addColumns cs offs b = some r := by
  intro cs
  induction cs with
  | nil =>
    intro offs b h
    exact ⟨_, rfl⟩
  | cons c cs ih =>
    intro offs b h
    have hc := h c (List.mem_cons_self _ _)
    rcases hk : sizeClass c.attrSize with _ | k
    · rw [hk] at hc
      simp at hc
    · unfold addColumns
      rw [hk]
      simp only []
      exact ih _ _ (fun x hx => h x (List.mem_cons_of_mem _ hx))

/-- Claim C2 (amended): from a counter of at least `MAX_NUM_VERSIONS - 1`,
a registration attempt returns at-capacity with every `DataTableVersion`
entry untouched and the counter clamped to `MAX_NUM_VERSIONS`; from any
counter strictly below `MAX_NUM_VERSIONS - 1`, registration succeeds
(for supported attribute sizes), bumping the counter by one and touching
no other registry index. -/
theorem claim_C2_amended :
    ∀ (st : SqlTable) (schema : List Column) (v : Nat),
      st.num_versions_ ≤ MAX_NUM_VERSIONS →
      (MAX_NUM_VERSIONS - 1 ≤ st.num_versions_ →
        st.CreateTable schema v =
          .ok (false, { st with num_versions_ := MAX_NUM_VERSIONS })) ∧
      (st.num_versions_ + 1 < MAX_NUM_VERSIONS →
        (∀ c ∈ schema, (sizeClass c.attrSize).isSome) →
        ∃ st', st.CreateTable schema v = .ok (true, st') ∧
          st'.num_versions_ = st.num_versions_ + 1 ∧
          ∀ j, j ≠ st.num_versions_ → st'.tables_ j = st.tables_ j) := by
  intro st schema v hb
  have h10 : MAX_NUM_VERSIONS = 10 := rfl
  have hmod : (st.num_versions_ + 1) % 256 = st.num_versions_ + 1 :=
    Nat.mod_eq_of_lt (by omega)
  constructor
  · intro hge
    unfold SqlTable.CreateTable
    simp only [hmod]
    rw [if_pos (by omega)]
  · intro hlt hsizes
    unfold SqlTable.CreateTable
    simp only [hmod]
    rw [if_neg (by omega)]
    obtain ⟨⟨b, offs2⟩, hadd⟩ := addColumns_total schema
      (ComputeBaseAttributeOffsets
        (List.replicate NUM_RESERVED_COLUMNS 8 ++ schema.map Column.attrSize)
        NUM_RESERVED_COLUMNS)
      ⟨[], [], fun _ => none, fun i => if i < NUM_RESERVED_COLUMNS then 8 else 0⟩
      hsizes
    rw [hadd]
    refine ⟨_, rfl, rfl, ?_⟩
    intro j hj
    simp only [Nat.add_sub_cancel]
    rw [if_neg hj]

/-- Witness for C2 (amended): at `st9` (nine versions, one below the cap)
registration already fails and clamps the counter to 10; at the fresh
`st0` registration succeeds. -/
theorem claim_C2_amended_witness :
    SqlTable.CreateTable st9 [⟨1, 4, none⟩] 9 =
      .ok (false, { st9 with num_versions_ := MAX_NUM_VERSIONS }) ∧
    (∃ st', SqlTable.CreateTable st0 [⟨1, 4, none⟩] 0 = .ok (true, st') ∧
      st'.num_versions_ = st0.num_versions_ + 1 ∧
      ∀ j, j ≠ st0.num_versions_ → st'.tables_ j = st0.tables_ j) :=
  ⟨(claim_C2_amended st9 [⟨1, 4, none⟩] 9 (by decide)).1 (by decide),
   (claim_C2_amended st0 [⟨1, 4, none⟩] 0 (by decide)).2 (by decide)
     (by intro c hc; simp at hc; subst hc; rfl)⟩

/-- Claim C8: a successful registration establishes that the two
directional column maps of the new `DataTableVersion` are mutually
inverse — looking an oid up in the oid-to-physical-id map and the result
up in the physical-id-to-oid map returns the original oid — and no other
registry entry is touched (the maps of existing versions are never
mutated). -/
theorem claim_C8_map_bijection :
    ∀ (st : SqlTable) (schema : List Column) (v : Nat) (st' : SqlTable),
      st.num_versions_ ≤ MAX_NUM_VERSIONS →
      st.CreateTable schema v = .ok (true, st') →
      (∀ o id,
        alookup o (st'.tables_ st.num_versions_).column_oid_to_id_map_ = some id →
        alookup id (st'.tables_ st.num_versions_).column_id_to_oid_map_ = some o) ∧
      (∀ j, j ≠ st.num_versions_ → st'.tables_ j = st.tables_ j) := by
  intro st schema v st' hb h
  have h10 : MAX_NUM_VERSIONS = 10 := rfl
  have hmod : (st.num_versions_ + 1) % 256 = st.num_versions_ + 1 :=
    Nat.mod_eq_of_lt (by omega)
  unfold SqlTable.CreateTable at h
  simp only [hmod] at h
  split at h
  · simp at h
  · split at h
    · simp at h
    · rename_i b offs2 hadd
      simp only [Except.ok.injEq, Prod.mk.injEq] at h
      obtain ⟨h1, h2⟩ := h
      rw [← h2]
      constructor
      · intro o id halo
        simp only [] at halo ⊢
        rw [if_pos (by omega)] at halo ⊢
        exact addColumns_inv schema _ _ _ _ hadd (buildInv_initial schema) o id halo
      · intro j hj
        simp only []
        rw [if_neg (by omega)]

/-- Witness for C8: on `st0` register a two-column schema (oids 1 and 2,
sizes 4 and 8); the resulting maps send oid 1 to physical id 2 and back. -/
theorem claim_C8_witness :
    alookup 2
      (((st0.CreateTable [⟨1, 4, none⟩, ⟨2, 8, some (some 3)⟩] 0).toOption.map
        (fun p => (p.2.tables_ 0).column_id_to_oid_map_)).getD []) = some 1 := by
  have h := (claim_C8_map_bijection st0 [⟨1, 4, none⟩, ⟨2, 8, some (some 3)⟩] 0
    ((st0.CreateTable [⟨1, 4, none⟩, ⟨2, 8, some (some 3)⟩] 0).toOption.getD
      (false, st0) |>.2) (by decide) rfl).1 1 2 rfl
  exact h

/-- Claim C10: a successful registration stores the new version at index
`num_versions_` (the registration count before the increment, i.e. count
after minus one), leaves every other index untouched, records the caller's
version id only as the new data table's version tag, and the stored index —
indeed the whole result apart from that tag — is independent of the
version-id argument. -/
theorem claim_C10_registration_index :
    ∀ (st : SqlTable) (schema : List Column) (v : Nat) (st' : SqlTable),
      st.num_versions_ ≤ MAX_NUM_VERSIONS →
      st.CreateTable schema v = .ok (true, st') →
      st'.num_versions_ = st.num_versions_ + 1 ∧
      (∀ j, j ≠ st.num_versions_ → st'.tables_ j = st.tables_ j) ∧
      (st'.tables_ st.num_versions_).dtVer = v ∧
      ∀ w, st.CreateTable schema w =
        .ok (true,
          { tables_ := fun j =>
              if j = st.num_versions_ then
                { st'.tables_ st.num_versions_ with dtVer := w }
              else st.tables_ j,
            num_versions_ := st.num_versions_ + 1 }) := by
  intro st schema v st' hb h
  have h10 : MAX_NUM_VERSIONS = 10 := rfl
  have hmod : (st.num_versions_ + 1) % 256 = st.num_versions_ + 1 :=
    Nat.mod_eq_of_lt (by omega)
  unfold SqlTable.CreateTable at h
  simp only [hmod] at h
  split at h
  · simp at h
  · split at h
    · simp at h
    · rename_i b offs2 hadd
      simp only [Except.ok.injEq, Prod.mk.injEq] at h
      obtain ⟨h1, h2⟩ := h
      have hsn : st'.tables_ st.num_versions_ =
          { dtVer := v, attrSizeOf := b.sizes, column_oid_to_id_map_ := b.oidToId,
            column_id_to_oid_map_ := b.idToOid, schemaCols := schema,
            default_value_map_ := b.dmap, dt := defaultOracle } := by
        rw [← h2]
        simp only []
        rw [if_pos (by omega)]
      refine ⟨by rw [← h2], ?_, ?_, ?_⟩
      · intro j hj
        rw [← h2]
        simp only []
        rw [if_neg (by omega)]
      · rw [hsn]
      · intro w
        rw [hsn]
        unfold SqlTable.CreateTable
        simp only [hmod]
        rw [if_neg (by omega), hadd]
        rfl

/-- Witness for C10: registering on `st0` with version argument 0 stores at
index 0 and tags the data table with 0; re-registering the same schema with
version argument 7 yields the same registry apart from the tag. -/
theorem claim_C10_witness :
    ∃ st', SqlTable.CreateTable st0 [⟨1, 4, none⟩] 0 = .ok (true, st') ∧
      st'.num_versions_ = 1 ∧ (st'.tables_ 0).dtVer = 0 := by
  refine ⟨((SqlTable.CreateTable st0 [⟨1, 4, none⟩] 0).toOption.getD (false, st0)).2,
    rfl, ?_, ?_⟩
  · exact (claim_C10_registration_index st0 [⟨1, 4, none⟩] 0 _ (by decide) rfl).1
  · exact (claim_C10_registration_index st0 [⟨1, 4, none⟩] 0 _ (by decide) rfl).2.2.1

theorem alookup_smInsert_of_some (sm : List (Nat × Nat)) (k v t s : Nat)
    (h : alookup t sm = some s) : alookup t (smInsert sm k v) = some s := by
  unfold smInsert
  split
  · exact h
  · rw [alookup_append, h]

theorem alookup_smInsert_self (sm : List (Nat × Nat)) (k v : Nat)
    (h : alookup k sm = none) : alookup k (smInsert sm k v) = some v := by
  unfold smInsert
  rw [h]
  simp only [Option.isSome_none, Bool.false_eq_true, if_false]
  rw [alookup_append, h]
  simp [alookup]

theorem alookup_single_ne (k v t : Nat) (h : t ≠ k) : alookup t [(k, v)] = none := by
  simp only [alookup]
  rw [if_neg (fun he => h he.symm)]

theorem alookup_smInsert_ne (sm : List (Nat × Nat)) (k v t : Nat) (h : t ≠ k) :
    alookup t (smInsert sm k v) = alookup t sm := by
  unfold smInsert
  split
  · rfl
  · rw [alookup_append]
    rcases hsm : alookup t sm with _ | w
    · simp only []
      exact alookup_single_ne k v t h
    · rfl

theorem alookup_smInsert_cases (sm : List (Nat × Nat)) (k v t s : Nat)
    (h : alookup t (smInsert sm k v) = some s) :
    alookup t sm = some s ∨ (t = k ∧ s = v ∧ alookup k sm = none) := by
  unfold smInsert at h
  split at h
  · exact Or.inl h
  · rename_i hnone
    rw [alookup_append] at h
    rcases hsm : alookup t sm with _ | w
    · rw [hsm] at h
      simp only [alookup] at h
      split at h
      · rename_i hk
        right
        refine ⟨hk.symm, by injection h with h; exact h.symm, ?_⟩
        rw [← Option.not_isSome_iff_eq_none]
        exact fun hc => hnone hc
      · exact absurd h (by simp)
    · rw [hsm] at h
      simp only [] at h
      exact Or.inl h

theorem alignGo_ok_closed (tupleV desiredV : DataTableVersion) :
    ∀ (hdr : List Nat) (i : Nat) (sm : List (Nat × Nat)) (hs : List Nat)
      (ms : List (Nat × Nat)) (smf : List (Nat × Nat)),
      alignGo tupleV desiredV i hdr sm = .ok (hs, ms, smf) →
      hs = hdr.map (transFn tupleV desiredV) ∧
      ms = (List.enumFrom i hdr).filterMap (missFn tupleV desiredV) ∧
      smf = hdr.foldl (smStep tupleV desiredV) sm := by
  intro hdr
  induction hdr with
  | nil =>
    intro i sm hs ms smf h
    simp only [alignGo, Except.ok.injEq, Prod.mk.injEq] at h
    obtain ⟨h1, h2, h3⟩ := h
    simp [← h1, ← h2, ← h3, List.enumFrom]
  | cons cid rest ih =>
    intro i sm hs ms smf h
    unfold alignGo at h
    split at h
    · exact absurd h (by simp)
    · rcases hd : alookup cid desiredV.column_id_to_oid_map_ with _ | oid
      · rw [hd] at h
        exact absurd h (by simp)
      · rw [hd] at h
        simp only [] at h
        rcases ht : alookup oid tupleV.column_oid_to_id_map_ with _ | tid
        · rw [ht] at h
          simp only [] at h
          split at h
          · exact absurd h (by simp)
          · rename_i hs2 ms2 smf2 heq
            simp only [Except.ok.injEq, Prod.mk.injEq] at h
            obtain ⟨h1, h2, h3⟩ := h
            obtain ⟨ih1, ih2, ih3⟩ := ih _ _ _ _ _ heq
            refine ⟨?_, ?_, ?_⟩
            · rw [← h1, ih1, List.map_cons]
              congr 1
              simp [transFn, hd, ht]
            · rw [← h2, ih2]
              have he : List.enumFrom i (cid :: rest) =
                  (i, cid) :: List.enumFrom (i + 1) rest := rfl
              rw [he, List.filterMap_cons]
              simp [missFn, hd, ht]
            · rw [← h3, ih3, List.foldl_cons]
              congr 1
              simp [smStep, hd, ht]
        · rw [ht] at h
          simp only [] at h
          split at h
          · exact absurd h (by simp)
          · rename_i hs2 ms2 smf2 heq
            simp only [Except.ok.injEq, Prod.mk.injEq] at h
            obtain ⟨h1, h2, h3⟩ := h
            obtain ⟨ih1, ih2, ih3⟩ := ih _ _ _ _ _ heq
            refine ⟨?_, ?_, ?_⟩
            · rw [← h1, ih1, List.map_cons]
              congr 1
              simp [transFn, hd, ht]
            · rw [← h2, ih2]
              have he : List.enumFrom i (cid :: rest) =
                  (i, cid) :: List.enumFrom (i + 1) rest := rfl
              rw [he, List.filterMap_cons]
              simp [missFn, hd, ht]
            · rw [← h3, ih3, List.foldl_cons]
              congr 1
              simp [smStep, hd, ht]

theorem smFoldl_lookup_some (tupleV desiredV : DataTableVersion) :
    ∀ (hdr : List Nat) (sm : List (Nat × Nat)) (t s : Nat),
      alookup t (hdr.foldl (smStep tupleV desiredV) sm) = some s →
      alookup t sm = some s ∨ ∃ cid ∈ hdr, MismatchAt tupleV desiredV cid t s := by
  intro hdr
  induction hdr with
  | nil =>
    intro sm t s h
    exact Or.inl h
  | cons cid rest ih =>
    intro sm t s h
    rw [List.foldl_cons] at h
    rcases ih _ _ _ h with h1 | ⟨c, hc, hm⟩
    · unfold smStep at h1
      rcases hd : alookup cid desiredV.column_id_to_oid_map_ with _ | oid
      · rw [hd] at h1
        exact Or.inl h1
      · rw [hd] at h1
        simp only [] at h1
        rcases ht : alookup oid tupleV.column_oid_to_id_map_ with _ | tid
        · rw [ht] at h1
          exact Or.inl h1
        · rw [ht] at h1
          simp only [] at h1
          split at h1
          · rename_i hne
            rcases alookup_smInsert_cases _ _ _ _ _ h1 with h2 | ⟨rfl, rfl, h3⟩
            · exact Or.inl h2
            · exact Or.inr ⟨cid, List.mem_cons_self _ _, oid, hd, ht, hne, rfl⟩
          · exact Or.inl h1
    · exact Or.inr ⟨c, List.mem_cons_of_mem _ hc, hm⟩

theorem smStep_lookup_of_untouched (tupleV desiredV : DataTableVersion)
    (sm : List (Nat × Nat)) (cid t : Nat)
    (h : ¬ ∃ s', MismatchAt tupleV desiredV cid t s') :
    alookup t (smStep tupleV desiredV sm cid) = alookup t sm := by
  unfold smStep
  rcases hd : alookup cid desiredV.column_id_to_oid_map_ with _ | oid
  · rfl
  · simp only []
    rcases ht : alookup oid tupleV.column_oid_to_id_map_ with _ | tid
    · rfl
    · simp only []
      split
      · rename_i hne
        apply alookup_smInsert_ne
        intro he
        subst he
        exact h ⟨desiredV.attrSizeOf cid, oid, hd, ht, hne, rfl⟩
      · rfl

theorem smFoldl_lookup_of_mismatch (tupleV desiredV : DataTableVersion) :
    ∀ (hdr : List Nat) (sm : List (Nat × Nat)) (t s : Nat),
      (∀ cid ∈ hdr, ∀ s', MismatchAt tupleV desiredV cid t s' → s' = s) →
      (alookup t sm = none ∨ alookup t sm = some s) →
      ((∃ cid ∈ hdr, MismatchAt tupleV desiredV cid t s) ∨ alookup t sm = some s) →
      alookup t (hdr.foldl (smStep tupleV desiredV) sm) = some s := by
  intro hdr
  induction hdr with
  | nil =>
    intro sm t s hagree hpre hex
    rcases hex with ⟨c, hc, _⟩ | h
    · simp at hc
    · exact h
  | cons cid rest ih =>
    intro sm t s hagree hpre hex
    rw [List.foldl_cons]
    by_cases htouch : ∃ s', MismatchAt tupleV desiredV cid t s'
    · obtain ⟨s2, hm⟩ := htouch
      have hs2 : s2 = s := hagree cid (List.mem_cons_self _ _) s2 hm
      obtain ⟨oid, hd, ht, hne, hsz⟩ := hm
      have hsz2 : desiredV.attrSizeOf cid = s := hsz.trans hs2
      have hstep : alookup t (smStep tupleV desiredV sm cid) = some s := by
        unfold smStep
        rw [hd]
        simp only []
        rw [ht]
        simp only []
        rw [if_pos hne, hsz2]
        rcases hpre with hp | hp
        · exact alookup_smInsert_self sm t s hp
        · exact alookup_smInsert_of_some sm t s t s hp
      exact ih _ _ _ (fun c hc => hagree c (List.mem_cons_of_mem _ hc))
        (Or.inr hstep) (Or.inr hstep)
    · have hstep := smStep_lookup_of_untouched tupleV desiredV sm cid t htouch
      rcases hex with ⟨c, hc, hm⟩ | hsome
      · rcases List.mem_cons.mp hc with rfl | hc'
        · exact absurd ⟨s, hm⟩ htouch
        · exact ih _ _ _ (fun c2 hc2 => hagree c2 (List.mem_cons_of_mem _ hc2))
            (by rw [hstep]; exact hpre) (Or.inl ⟨c, hc', hm⟩)
      · exact ih _ _ _ (fun c2 hc2 => hagree c2 (List.mem_cons_of_mem _ hc2))
          (by rw [hstep]; exact hpre) (Or.inr (by rw [hstep]; exact hsome))

theorem getD_map_lt (f : Nat → Nat) (l : List Nat) (i : Nat) (hi : i < l.length) :
    (l.map f).getD i 0 = f (l.getD i 0) := by
  rw [List.getD_eq_getElem?_getD, List.getD_eq_getElem?_getD, List.getElem?_map,
    List.getElem?_eq_getElem hi]
  rfl

theorem getD_mem_of_lt (l : List Nat) (i : Nat) (hi : i < l.length) :
    l.getD i 0 ∈ l := by
  rw [List.getD_eq_getElem?_getD, List.getElem?_eq_getElem hi]
  exact List.getElem_mem hi

/-- Claim C4: for a projection header valid in the desired version (no
reserved id, every entry resolvable, entries resolving to the same
tuple-version physical id coincide), `AlignHeaderToVersion` rewrites each
position to the tuple-version physical id (same attribute size: nothing
enters the size-mismatch map; different size: the pair
`(tuple id ↦ desired attribute size)` is in the map) or to the `IGNORE`
sentinel with `(position, oid)` appended to the missing list, and the
size-mismatch map holds nothing else. -/
theorem claim_C4_align_cases :
    ∀ (tupleV desiredV : DataTableVersion) (header : List Nat) (ar : AlignRes),
      (∀ cid ∈ header, cid ≠ VERSION_POINTER_COLUMN_ID ∧
        (alookup cid desiredV.column_id_to_oid_map_).isSome) →
      (∀ c ∈ header, ∀ c' ∈ header, ∀ o o' t,
        alookup c desiredV.column_id_to_oid_map_ = some o →
        alookup c' desiredV.column_id_to_oid_map_ = some o' →
        alookup o tupleV.column_oid_to_id_map_ = some t →
        alookup o' tupleV.column_oid_to_id_map_ = some t → c = c') →
      AlignHeaderToVersion tupleV desiredV header = .ok ar →
      ar.translated = header.map (transFn tupleV desiredV) ∧
      ar.missing = header.enum.filterMap (missFn tupleV desiredV) ∧
      (∀ i oid, i < header.length →
        alookup (header.getD i 0) desiredV.column_id_to_oid_map_ = some oid →
        (∀ tid, alookup oid tupleV.column_oid_to_id_map_ = some tid →
          ar.translated.getD i 0 = tid ∧
          (tupleV.attrSizeOf tid ≠ desiredV.attrSizeOf (header.getD i 0) →
            alookup tid ar.sizeMap = some (desiredV.attrSizeOf (header.getD i 0))) ∧
          (tupleV.attrSizeOf tid = desiredV.attrSizeOf (header.getD i 0) →
            alookup tid ar.sizeMap = none)) ∧
        (alookup oid tupleV.column_oid_to_id_map_ = none →
          ar.translated.getD i 0 = IGNORE_COLUMN_ID ∧ (i, oid) ∈ ar.missing)) ∧
      (∀ t s, alookup t ar.sizeMap = some s →
        ∃ cid ∈ header, MismatchAt tupleV desiredV cid t s) := by
  intro tupleV desiredV header ar hvalid hinj h
  unfold AlignHeaderToVersion at h
  split at h
  · exact absurd h (by simp)
  · rename_i hs ms sm heq
    simp only [Except.ok.injEq] at h
    subst h
    obtain ⟨e1, e2, e3⟩ := alignGo_ok_closed tupleV desiredV header 0 [] hs ms sm heq
    have hagree : ∀ (i : Nat) (oid tid : Nat), i < header.length →
        alookup (header.getD i 0) desiredV.column_id_to_oid_map_ = some oid →
        alookup oid tupleV.column_oid_to_id_map_ = some tid →
        ∀ c ∈ header, ∀ s', MismatchAt tupleV desiredV c tid s' →
          s' = desiredV.attrSizeOf (header.getD i 0) ∧
          c = header.getD i 0 := by
      intro i oid tid hi hoid htid c hc s' hm
      obtain ⟨oid2, hd2, ht2, hne2, hsz2⟩ := hm
      have hceq : c = header.getD i 0 :=
        hinj c hc (header.getD i 0) (getD_mem_of_lt header i hi) oid2 oid tid
          hd2 hoid ht2 htid
      subst hceq
      exact ⟨hsz2.symm, rfl⟩
    refine ⟨e1, e2, ?_, ?_⟩
    · intro i oid hi hoid
      constructor
      · intro tid htid
        refine ⟨?_, ?_, ?_⟩
        · simp only [e1]
          rw [getD_map_lt _ _ _ hi]
          unfold transFn
          rw [hoid]
          simp only []
          rw [htid]
        · intro hne
          simp only [e3]
          apply smFoldl_lookup_of_mismatch
          · intro c hc s' hm
            exact ((hagree i oid tid hi hoid htid c hc s' hm).1)
          · exact Or.inl rfl
          · exact Or.inl ⟨header.getD i 0, getD_mem_of_lt header i hi,
              oid, hoid, htid, hne, rfl⟩
        · intro hsame
          simp only [e3]
          rcases hlk : alookup tid (header.foldl (smStep tupleV desiredV) []) with _ | s
          · rfl
          · rcases smFoldl_lookup_some tupleV desiredV header [] tid s hlk with
              hemp | ⟨c, hc, hm⟩
            · simp [alookup] at hemp
            · obtain ⟨hsz, hceq⟩ := hagree i oid tid hi hoid htid c hc s hm
              obtain ⟨oid2, hd2, ht2, hne2, hsz2⟩ := hm
              rw [hceq] at hne2
              exact absurd hsame hne2
      · intro hnone
        constructor
        · simp only [e1]
          rw [getD_map_lt _ _ _ hi]
          unfold transFn
          rw [hoid]
          simp only []
          rw [hnone]
        · simp only [e2]
          apply List.mem_filterMap.mpr
          refine ⟨(i, header.getD i 0), ?_, ?_⟩
          · apply List.mk_mem_enum_iff_getElem?.mpr
            rw [List.getD_eq_getElem?_getD, List.getElem?_eq_getElem hi]
            rfl
          · unfold missFn
            simp only []
            rw [hoid]
            simp only []
            rw [hnone]
    · intro t s hlk
      rw [e3] at hlk
      rcases smFoldl_lookup_some tupleV desiredV header [] t s hlk with hemp | hex
      · simp [alookup] at hemp
      · exact hex

/-- Witness for C4: translating the header `[1, 2]` (oids 1 and 2 of
`verU1`) down to `verU0` rewrites position 0 to tuple id 1 and position 1
to the `IGNORE` sentinel, recording `(1, 2)` as missing. -/
theorem claim_C4_witness :
    ([1, IGNORE_COLUMN_ID] : List Nat) = [1, 2].map (transFn verU0 verU1) ∧
    ([(1, 2)] : List (Nat × Nat)) =
      ([1, 2] : List Nat).enum.filterMap (missFn verU0 verU1) := by
  have h := claim_C4_align_cases verU0 verU1 [1, 2]
    ⟨[1, IGNORE_COLUMN_ID], [1, 2], [(1, 2)], []⟩
    (by decide)
    (by
      intro c hc c' hc' o o' t h1 h2 h3 h4
      have e2 : alookup 2 verU1.column_id_to_oid_map_ = some 2 := rfl
      have e4 : alookup 2 verU0.column_oid_to_id_map_ = none := rfl
      fin_cases hc <;> fin_cases hc'
      · rfl
      · rw [e2] at h2
        injection h2 with h2
        rw [← h2] at h4
        rw [e4] at h4
        exact Option.noConfusion h4
      · rw [e2] at h1
        injection h1 with h1
        rw [← h1] at h3
        rw [e4] at h3
        exact Option.noConfusion h3
      · rfl)
    rfl
  exact ⟨h.1, h.2.1⟩

end TerrierStorage
